import Mathlib

/-!
Shallow embedding of the magic-library collection backend.

The relational store is modelled as lists of rows; SQLAlchemy query
combinators are translated as follows: `filter` becomes `List.filter`,
`.first()` on an unordered query becomes `List.find?` in row (insertion)
order, `func.max` becomes `List.max?` over the non-null values,
`order_by` becomes a stable sort by the translated key, and
`raise HTTPException` becomes an `Except.error` (the surrounding
transaction commits only on success, so an error leaves the store
unchanged).  Dates are encoded as `Nat` in `yyyymmdd` form, so the SQL
string sentinel '9999-12-31' becomes `99991231` and `COALESCE` becomes
`Option.getD`.  Autoincrement ids follow the SQLite rule: next id is
one more than the current maximum.
-/

namespace MagicLib

/-- Python str.upper for the ASCII range (set codes in the data are ASCII). -/
def upChar (c : Char) : Char :=
  if 'a' ≤ c && c ≤ 'z' then Char.ofNat (c.toNat - 32) else c

/-- Uppercase a string, mirroring `data.set_code.upper()`. -/
def upStr (s : String) : String := ⟨s.data.map upChar⟩

/-- Python str.lower for the ASCII range. -/
def downChar (c : Char) : Char :=
  if 'A' ≤ c && c ≤ 'Z' then Char.ofNat (c.toNat + 32) else c

/-- Lowercase a string, mirroring `func.lower(...)` / `.lower()`. -/
def downStr (s : String) : String := ⟨s.data.map downChar⟩

/-- SQL / Python string comparison (code-point lexicographic), as a Bool. -/
def strLtB (a b : String) : Bool := decide (a.data < b.data)

/-- A row of the `cards` table (immutable catalog). -/
structure CardRow where
  set_code : String
  number : String
  name : String
  rarity : String
deriving DecidableEq, Repr

/-- A row of the `sets` table; `release_date` is `yyyymmdd`, nullable. -/
structure SetRow where
  code : String
  name : String
  release_date : Option Nat
deriving DecidableEq, Repr

/-- A row of the `languages` table. -/
structure LanguageRow where
  id : Nat
  code : String
  name : String
deriving DecidableEq, Repr

/-- A row of the `finishes` table. -/
structure FinishRow where
  id : Nat
  name : String
deriving DecidableEq, Repr

/-- A row of the `container_types` table. -/
structure ContainerTypeRow where
  id : Nat
  name : String
deriving DecidableEq, Repr

/-- A row of the `containers` table. -/
structure ContainerRow where
  id : Nat
  name : String
  type_id : Nat
  parent_id : Option Nat
  depth : Nat
  user_id : Nat
  binder_columns : Nat
  binder_fill_row : Bool
deriving DecidableEq, Repr

/-- A row of the `collection_entries` table. -/
structure EntryRow where
  id : Nat
  set_code : String
  card_number : String
  container_id : Nat
  quantity : Int
  finish_id : Option Nat
  language_id : Nat
  comments : Option String
  user_id : Nat
  position : Option Int
deriving DecidableEq, Repr

/-- The whole database; row lists are kept in insertion order. -/
structure Store where
  cards : List CardRow
  sets : List SetRow
  languages : List LanguageRow
  finishes : List FinishRow
  containerTypes : List ContainerTypeRow
  containers : List ContainerRow
  entries : List EntryRow
deriving DecidableEq, Repr

/-- HTTP-level failures raised by the routers. -/
inductive ApiError where
  | notFound (detail : String)
  | badRequest (detail : String)
deriving DecidableEq, Repr

/-- Python truthiness of an optional string (None and '' are falsy). -/
def pyTruthy (o : Option String) : Bool := o.getD "" != ""

/-- Card.query by exact (set_code, number) pair. -/
def findCard (s : Store) (code num : String) : Option CardRow :=
  s.cards.find? (fun c => c.set_code == code && c.number == num)

/-- Container lookup filtered by id and owning user. -/
def findContainerOwned (s : Store) (cid uid : Nat) : Option ContainerRow :=
  s.containers.find? (fun c => c.id == cid && c.user_id == uid)

/-- Container lookup by id only (the binder endpoints omit the user filter). -/
def findContainerById (s : Store) (cid : Nat) : Option ContainerRow :=
  s.containers.find? (fun c => c.id == cid)

/-- ContainerType lookup by id. -/
def findType (s : Store) (tid : Nat) : Option ContainerTypeRow :=
  s.containerTypes.find? (fun t => t.id == tid)

/-- Whether a container's type row exists and is named 'file' (case-insensitive). -/
def containerIsFile (s : Store) (c : ContainerRow) : Bool :=
  match findType s c.type_id with
  | some t => downStr t.name == "file"
  | none => false

/-- Language lookup by id. -/
def findLanguage (s : Store) (lid : Nat) : Option LanguageRow :=
  s.languages.find? (fun l => l.id == lid)

/-- Finish lookup by id. -/
def findFinish (s : Store) (fid : Nat) : Option FinishRow :=
  s.finishes.find? (fun f => f.id == fid)

/-- Set lookup by code (the LEFT OUTER JOIN target). -/
def findSet (s : Store) (code : String) : Option SetRow :=
  s.sets.find? (fun st => st.code == code)

/-- Id of the language whose name lowercases to 'english', if any. -/
def englishId (s : Store) : Option Nat :=
  (s.languages.find? (fun l => downStr l.name == "english")).map (fun l => l.id)

/-- Card name of an entry via the join on (set_code, number); `none` when the
card row is absent (an inner join would drop the row). -/
def entryName (s : Store) (e : EntryRow) : Option String :=
  (findCard s e.set_code e.card_number).map (fun c => c.name)

/-- Predicate of the same-name query in `add_to_collection` (collection.py
lines 79-87): entry in the container for the user, non-null position, joined
card name equal to the candidate's name. -/
def sameNamePosB (s : Store) (cid uid : Nat) (nm : String) (e : EntryRow) : Bool :=
  e.container_id == cid && e.user_id == uid && e.position.isSome &&
    (entryName s e == some nm)

/-- The user's entries in one container. -/
def containerEntries (s : Store) (cid uid : Nat) : List EntryRow :=
  s.entries.filter (fun e => e.container_id == cid && e.user_id == uid)

/-- func.max over the `position` column of the user's entries in the
container (collection.py lines 94-97); NULLs are ignored by SQL max. -/
def maxPositionQ (s : Store) (cid uid : Nat) : Option Int :=
  ((containerEntries s cid uid).filterMap (fun e => e.position)).max?

/-- Automatic position assignment of `add_to_collection` (collection.py
lines 76-98): reuse the position of the first existing same-name positioned
entry, else `(max_position or 0) + 1`. -/
def autoPosition (s : Store) (cid uid : Nat) (nm : String) : Option Int :=
  match s.entries.find? (sameNamePosB s cid uid nm) with
  | some e => e.position
  | none => some ((maxPositionQ s cid uid).getD 0 + 1)

/-- Request body of POST /collection/. -/
structure EntryCreate where
  set_code : String
  card_number : String
  container_id : Nat
  quantity : Int
  finish_id : Option Nat
  language_id : Nat
  comments : Option String
  position : Option Int
deriving DecidableEq, Repr

/-- Response of POST /collection/ (fields needed by the claims). -/
structure EntryResponse where
  id : Nat
  set_code : String
  card_number : String
  container_id : Nat
  quantity : Int
  finish_id : Option Nat
  language_id : Nat
  comments : Option String
  card_name : String
  container_name : String
  position : Option Int
deriving DecidableEq, Repr

/-- Next autoincrement id for `collection_entries` (SQLite: max rowid + 1). -/
def freshEntryId (s : Store) : Nat :=
  (s.entries.map (fun e => e.id)).foldr max 0 + 1

/-- The duplicate-variant query of `add_to_collection` (collection.py lines
101-108): same card key, container, finish, language, user. -/
def exactVariantQ (s : Store) (uid : Nat) (code num : String) (cid : Nat)
    (fin : Option Nat) (lang : Nat) : Option EntryRow :=
  s.entries.find? (fun e =>
    e.set_code == code && e.card_number == num && e.container_id == cid &&
    e.finish_id == fin && e.language_id == lang && e.user_id == uid)

/-- Replace the row with the given id (ORM in-place update; ids are unique). -/
def updateEntry (l : List EntryRow) (eid : Nat) (f : EntryRow → EntryRow) :
    List EntryRow :=
  l.map (fun e => if e.id == eid then f e else e)

/-- POST /collection/ (`add_to_collection`, collection.py lines 38-148). -/
def addToCollection (s : Store) (uid : Nat) (d : EntryCreate) :
    Except ApiError (Store × EntryResponse) :=
  match findCard s (upStr d.set_code) d.card_number with
  | none => .error (.notFound "Card not found")
  | some card =>
    match findContainerOwned s d.container_id uid with
    | none => .error (.notFound "Container not found")
    | some container =>
      match findLanguage s d.language_id with
      | none => .error (.badRequest "Invalid language")
      | some _ =>
        if d.finish_id.isSome && (findFinish s (d.finish_id.getD 0)).isNone then
          .error (.badRequest "Invalid finish")
        else
          let position_to_assign : Option Int :=
            if containerIsFile s container && d.position == none then
              autoPosition s d.container_id uid card.name
            else d.position
          match exactVariantQ s uid (upStr d.set_code) d.card_number
              d.container_id d.finish_id d.language_id with
          | some existing =>
            let existing2 := { existing with
              quantity := existing.quantity + d.quantity,
              comments := if pyTruthy d.comments then d.comments
                          else existing.comments }
            let entries2 := updateEntry s.entries existing.id (fun e =>
              { e with
                quantity := e.quantity + d.quantity,
                comments := if pyTruthy d.comments then d.comments
                            else e.comments })
            let s2 := { s with entries := entries2 }
            .ok (s2,
              { id := existing2.id, set_code := existing2.set_code,
                card_number := existing2.card_number,
                container_id := existing2.container_id,
                quantity := existing2.quantity,
                finish_id := existing2.finish_id,
                language_id := existing2.language_id,
                comments := existing2.comments, card_name := card.name,
                container_name := container.name,
                position := existing2.position })
          | none =>
            let entry : EntryRow :=
              { id := freshEntryId s, set_code := upStr d.set_code,
                card_number := d.card_number, container_id := d.container_id,
                quantity := d.quantity, finish_id := d.finish_id,
                language_id := d.language_id, comments := d.comments,
                user_id := uid, position := position_to_assign }
            let s2 := { s with entries := s.entries ++ [entry] }
            .ok (s2,
              { id := entry.id, set_code := entry.set_code,
                card_number := entry.card_number,
                container_id := entry.container_id,
                quantity := entry.quantity, finish_id := entry.finish_id,
                language_id := entry.language_id, comments := entry.comments,
                card_name := card.name, container_name := container.name,
                position := entry.position })

/-- A parsed CSV import row.  CSV parsing and the finish/language string
resolution are format-adapter concerns (out of scope per spec section 1);
a row reaches the position logic with resolved finish and language ids.
`card_number` is absent for the MTGGoldfish format (the source guards it
with a locals() check). -/
structure ImportRow where
  quantity : Int
  card_name : String
  set_code : String
  card_number : Option String
  finish_id : Option Nat
  language_id : Nat
deriving DecidableEq, Repr

/-- find_card_by_name_and_set (bulk.py lines 95-100): case-insensitive name
match, optionally narrowed by case-insensitive set code. -/
def findCardByNameSet (s : Store) (nm : String) (code : Option String) :
    Option CardRow :=
  match code with
  | some sc => s.cards.find? (fun c =>
      downStr c.name == downStr nm && upStr c.set_code == upStr sc)
  | none => s.cards.find? (fun c => downStr c.name == downStr nm)

/-- Card resolution of the import loop (bulk.py lines 302-318): exact
(set, number) key first, then name + set, then name alone. -/
def resolveImportCard (s : Store) (row : ImportRow) : Option CardRow :=
  let byKey : Option CardRow :=
    match row.card_number with
    | some num =>
      if row.set_code != "" && num != "" then
        s.cards.find? (fun c =>
          upStr c.set_code == upStr row.set_code && c.number == num)
      else none
    | none => none
  match byKey with
  | some c => some c
  | none =>
    match (if row.set_code != "" then
             findCardByNameSet s row.card_name (some row.set_code)
           else none) with
    | some c => some c
    | none => findCardByNameSet s row.card_name none

/-- Predicate of the same-name query in `import_collection` (bulk.py lines
329-337). -/
def importSameNamePosB (s : Store) (cid uid : Nat) (nm : String)
    (e : EntryRow) : Bool :=
  e.container_id == cid && e.user_id == uid && e.position.isSome &&
    (entryName s e == some nm)

/-- func.max over positions in `import_collection` (bulk.py lines 342-345). -/
def importMaxPositionQ (s : Store) (cid uid : Nat) : Option Int :=
  ((s.entries.filter (fun e => e.container_id == cid && e.user_id == uid)).filterMap
    (fun e => e.position)).max?

/-- Position determination of the CSV import row processing (bulk.py lines
325-346): same-name reuse, else `(max_pos or 0) + 1`. -/
def importAutoPosition (s : Store) (cid uid : Nat) (nm : String) : Option Int :=
  match s.entries.find? (importSameNamePosB s cid uid nm) with
  | some e => e.position
  | none => some ((importMaxPositionQ s cid uid).getD 0 + 1)

/-- One iteration of the import loop after parsing (bulk.py lines 302-374):
resolve the card (a miss records an error and leaves the store unchanged),
compute the position when the container is a binder, then merge into an
existing exact variant or insert a new row. -/
def importRowStep (s : Store) (uid cid : Nat) (isBinder : Bool)
    (row : ImportRow) : Store :=
  match resolveImportCard s row with
  | none => s
  | some card =>
    let position : Option Int :=
      if isBinder then importAutoPosition s cid uid card.name else none
    match exactVariantQ s uid card.set_code card.number cid row.finish_id
        row.language_id with
    | some existing =>
      { s with entries := (updateEntry s.entries existing.id
          (fun e => { e with quantity := e.quantity + row.quantity })) }
    | none =>
      { s with entries := s.entries ++
          [{ id := freshEntryId s, set_code := card.set_code,
             card_number := card.number, container_id := cid,
             quantity := row.quantity, finish_id := row.finish_id,
             language_id := row.language_id, comments := none,
             user_id := uid, position := position }] }

/-- POST /bulk/import (`import_collection`, bulk.py lines 215-389), after
the format adapters have produced the parsed rows. -/
def importCollection (s : Store) (uid cid : Nat) (rows : List ImportRow) :
    Except ApiError Store :=
  match findContainerOwned s cid uid with
  | none => .error (.notFound "Container not found")
  | some container =>
    let isBinder := containerIsFile s container
    .ok (rows.foldl (fun st row => importRowStep st uid cid isBinder row) s)

/-- Request body of POST /collection/{entry_id}/move. -/
structure MoveRequest where
  quantity : Int
  target_container_id : Nat
deriving DecidableEq, Repr

/-- POST /collection/{entry_id}/move (`move_collection_entry`,
collection.py lines 341-427).  The created target entry carries no
position (the constructor omits the column, whose default is NULL).
Returns the updated store and the target entry id. -/
def moveEntry (s : Store) (uid entry_id : Nat) (d : MoveRequest) :
    Except ApiError (Store × Nat) :=
  match s.entries.find? (fun e => e.id == entry_id && e.user_id == uid) with
  | none => .error (.notFound "Entry not found")
  | some source =>
    if d.quantity > source.quantity then
      .error (.badRequest "Cannot move more cards than available")
    else
      match findContainerOwned s d.target_container_id uid with
      | none => .error (.notFound "Target container not found")
      | some _ =>
        if source.container_id == d.target_container_id then
          .error (.badRequest "Source and target containers are the same")
        else
          match exactVariantQ s uid source.set_code source.card_number
              d.target_container_id source.finish_id source.language_id with
          | some existing =>
            let entries2 := updateEntry s.entries existing.id
              (fun e => { e with quantity := e.quantity + d.quantity })
            let entries3 :=
              if d.quantity == source.quantity then
                entries2.filter (fun e => e.id != source.id)
              else
                updateEntry entries2 source.id
                  (fun e => { e with quantity := e.quantity - d.quantity })
            .ok ({ s with entries := entries3 }, existing.id)
          | none =>
            let target : EntryRow :=
              { id := freshEntryId s, set_code := source.set_code,
                card_number := source.card_number,
                container_id := d.target_container_id, quantity := d.quantity,
                finish_id := source.finish_id,
                language_id := source.language_id, comments := source.comments,
                user_id := uid, position := none }
            let base := s.entries ++ [target]
            let entries3 :=
              if d.quantity == source.quantity then
                base.filter (fun e => e.id != source.id)
              else
                updateEntry base source.id
                  (fun e => { e with quantity := e.quantity - d.quantity })
            .ok ({ s with entries := entries3 }, target.id)

instance : Std.Antisymm (fun (a b : Int) => a ≤ b) :=
  ⟨fun h1 h2 => le_antisymm h1 h2⟩

theorem max?_append_one (l : List Int) (a : Int) :
    (l ++ [a]).max? = some (l.max?.elim a (fun m => max m a)) := by
  induction l with
  | nil => simp [List.max?_cons]
  | cons x xs ih =>
    simp only [List.cons_append, List.max?_cons, ih]
    cases h : xs.max? <;> simp [max_assoc]

theorem int_max?_mem_le {l : List Int} {m b : Int} (h : l.max? = some m)
    (hb : b ∈ l) : b ≤ m :=
  ((List.max?_eq_some_iff (fun a => le_refl a) (fun a b => max_choice a b)
    (fun _ _ _ => max_le_iff)).mp h).2 b hb

theorem max?_append_mem (l : List Int) (a : Int) (ha : a ∈ l) :
    (l ++ [a]).max? = l.max? := by
  rw [max?_append_one]
  cases h : l.max? with
  | none =>
    rw [List.max?_eq_none_iff] at h
    subst h; simp at ha
  | some m =>
    have : a ≤ m := int_max?_mem_le h ha
    simp [Option.elim, max_eq_left this]

theorem maxPositionQ_append (s : Store) (cid uid : Nat) (e : EntryRow)
    (hc : e.container_id = cid) (hu : e.user_id = uid) (p : Int)
    (hp : e.position = some p)
    (hmem : p ∈ (containerEntries s cid uid).filterMap (fun x => x.position)) :
    maxPositionQ { s with entries := s.entries ++ [e] } cid uid =
      maxPositionQ s cid uid := by
  simp only [maxPositionQ, containerEntries, List.filter_append,
    List.filterMap_append]
  have h1 : List.filter (fun x => x.container_id == cid && x.user_id == uid)
      [e] = [e] := by
    simp [hc, hu]
  rw [h1]
  have h2 : List.filterMap (fun x => x.position) [e] = [p] := by
    simp [List.filterMap_cons, hp]
  rw [h2]
  exact max?_append_mem _ p hmem

/-- C7: for every (container, user, candidate card name, store state) the
position computed by the direct-add path (collection.py lines 76-98) and
the position computed by the CSV-import row-processing path (bulk.py lines
325-346) when no explicit position is given are equal: the two
entry-creation paths implement the same assignment policy. -/
theorem c7_import_add_policy_agree (s : Store) (cid uid : Nat) (nm : String) :
    importAutoPosition s cid uid nm = autoPosition s cid uid nm := rfl

/-- C1: for an add into a binder ('file') container where the caller gives
no explicit position: if some entry of the same user in that container has
a non-null position and the same card name, the stored position equals that
entry's position; otherwise it equals 1 plus the maximum position over the
user's entries in the container, which is 1 when no positioned entry
exists. -/
theorem c1_add_position_policy
    (s : Store) (uid : Nat) (d : EntryCreate) (s2 : Store)
    (resp : EntryResponse) (card : CardRow) (container : ContainerRow)
    (hpos : d.position = none)
    (hcard : findCard s (upStr d.set_code) d.card_number = some card)
    (hcont : findContainerOwned s d.container_id uid = some container)
    (hfile : containerIsFile s container = true)
    (hnew : exactVariantQ s uid (upStr d.set_code) d.card_number
      d.container_id d.finish_id d.language_id = none)
    (hrun : addToCollection s uid d = .ok (s2, resp)) :
    ∃ p : Int, resp.position = some p ∧
      (∃ e, s2.entries = s.entries ++ [e] ∧ e.position = some p) ∧
      ((∃ e0 ∈ s.entries, e0.container_id = d.container_id ∧
          e0.user_id = uid ∧ entryName s e0 = some card.name ∧
          e0.position = some p) ∨
       ((∀ e0 ∈ s.entries, e0.container_id = d.container_id →
           e0.user_id = uid → entryName s e0 = some card.name →
           e0.position = none) ∧
        p = (maxPositionQ s d.container_id uid).getD 0 + 1)) := by
  cases hlang : findLanguage s d.language_id with
  | none =>
    simp only [addToCollection, hcard, hcont, hlang] at hrun
    exact absurd hrun (by simp)
  | some lang =>
    simp only [addToCollection, hcard, hcont, hlang] at hrun
    by_cases hfin : (d.finish_id.isSome &&
        (findFinish s (d.finish_id.getD 0)).isNone) = true
    · rw [if_pos hfin] at hrun; exact absurd hrun (by simp)
    · rw [if_neg hfin] at hrun
      have hcond : (containerIsFile s container && d.position == none) = true := by
        rw [hfile, hpos]; rfl
      simp only [hnew, hcond, if_true] at hrun
      rw [Except.ok.injEq, Prod.mk.injEq] at hrun
      obtain ⟨hs2, hresp⟩ := hrun
      subst hs2; subst hresp
      cases hap : s.entries.find? (sameNamePosB s d.container_id uid card.name) with
      | some e0 =>
        have hmem := List.mem_of_find?_eq_some hap
        have hpred := List.find?_some hap
        simp only [sameNamePosB, Bool.and_eq_true, beq_iff_eq,
          Option.isSome_iff_exists] at hpred
        obtain ⟨⟨⟨hc, hu⟩, q, hq⟩, hn⟩ := hpred
        refine ⟨q, ?_, ?_, ?_⟩
        · simp only [autoPosition, hap, hq]
        · refine ⟨_, rfl, ?_⟩
          simp only [autoPosition, hap, hq]
        · exact Or.inl ⟨e0, hmem, hc, hu, hn, hq⟩
      | none =>
        refine ⟨(maxPositionQ s d.container_id uid).getD 0 + 1, ?_, ?_, ?_⟩
        · simp only [autoPosition, hap]
        · refine ⟨_, rfl, ?_⟩
          simp only [autoPosition, hap]
        · refine Or.inr ⟨?_, rfl⟩
          intro e0 he0 hc hu hn
          have := List.find?_eq_none.mp hap e0 he0
          simp only [sameNamePosB, Bool.and_eq_true, beq_iff_eq,
            Option.isSome_iff_exists, not_and] at this
          cases hq : e0.position with
          | none => rfl
          | some q => exact absurd hn (this ⟨⟨hc, hu⟩, q, hq⟩)

/-- C9: adding another variant of a card whose name is already positioned
in a binder container reuses the name's position: the new entry carries
that position and the container's max position is unchanged. -/
theorem c9_variant_add_keeps_max
    (s : Store) (uid : Nat) (d : EntryCreate) (s2 : Store)
    (resp : EntryResponse) (card : CardRow) (container : ContainerRow)
    (e0 : EntryRow) (p : Int)
    (hpos : d.position = none)
    (hcard : findCard s (upStr d.set_code) d.card_number = some card)
    (hcont : findContainerOwned s d.container_id uid = some container)
    (hfile : containerIsFile s container = true)
    (he0 : e0 ∈ s.entries)
    (he0b : sameNamePosB s d.container_id uid card.name e0 = true)
    (hall : ∀ e ∈ s.entries,
      sameNamePosB s d.container_id uid card.name e = true →
      e.position = some p)
    (hnew : exactVariantQ s uid (upStr d.set_code) d.card_number
      d.container_id d.finish_id d.language_id = none)
    (hrun : addToCollection s uid d = .ok (s2, resp)) :
    (∃ e, s2.entries = s.entries ++ [e] ∧ e.position = some p) ∧
    maxPositionQ s2 d.container_id uid = maxPositionQ s d.container_id uid := by
  cases hlang : findLanguage s d.language_id with
  | none =>
    simp only [addToCollection, hcard, hcont, hlang] at hrun
    exact absurd hrun (by simp)
  | some lang =>
    simp only [addToCollection, hcard, hcont, hlang] at hrun
    by_cases hfin : (d.finish_id.isSome &&
        (findFinish s (d.finish_id.getD 0)).isNone) = true
    · rw [if_pos hfin] at hrun; exact absurd hrun (by simp)
    · rw [if_neg hfin] at hrun
      have hcond : (containerIsFile s container && d.position == none) = true := by
        rw [hfile, hpos]; rfl
      simp only [hnew, hcond, if_true] at hrun
      rw [Except.ok.injEq, Prod.mk.injEq] at hrun
      obtain ⟨hs2, hresp⟩ := hrun
      subst hs2; subst hresp
      cases hap : s.entries.find? (sameNamePosB s d.container_id uid card.name) with
      | none => exact absurd he0b (List.find?_eq_none.mp hap e0 he0)
      | some e1 =>
        have he1mem := List.mem_of_find?_eq_some hap
        have he1p : e1.position = some p :=
          hall e1 he1mem (List.find?_some hap)
        have hposassign : autoPosition s d.container_id uid card.name = some p := by
          simp only [autoPosition, hap, he1p]
        constructor
        · exact ⟨_, rfl, by simp only [hposassign]⟩
        · have he0p : e0.position = some p := hall e0 he0 he0b
          simp only [sameNamePosB, Bool.and_eq_true, beq_iff_eq] at he0b
          obtain ⟨⟨⟨hc0, hu0⟩, _⟩, _⟩ := he0b
          have hmemp : p ∈ (containerEntries s d.container_id uid).filterMap
              (fun e => e.position) := by
            rw [List.mem_filterMap]
            refine ⟨e0, ?_, he0p⟩
            simp only [containerEntries, List.mem_filter, Bool.and_eq_true,
              beq_iff_eq]
            exact ⟨he0, hc0, hu0⟩
          exact maxPositionQ_append s d.container_id uid _ rfl rfl p
            (by simp only [hposassign]) hmemp

/-- Example catalog: two cards with distinct names. -/
def exCards : List CardRow := [
  ⟨"LEA", "1", "Bolt", "C"⟩,
  ⟨"LEB", "2", "Shock", "C"⟩ ]

/-- Example store: a binder (type 'file') container 1 and a box container 2
owned by user 7, with no entries yet. -/
def exStore : Store :=
  { cards := exCards, sets := [⟨"LEA", "Alpha", some 19930805⟩],
    languages := [⟨1, "en", "English"⟩, ⟨2, "jp", "Japanese"⟩],
    finishes := [⟨1, "foil"⟩],
    containerTypes := [⟨1, "file"⟩, ⟨2, "box"⟩],
    containers := [⟨1, "Binder", 1, none, 0, 7, 3, false⟩,
                   ⟨2, "Box", 2, none, 0, 7, 3, false⟩],
    entries := [] }

/-- Add request: card Bolt into the binder, no explicit position. -/
def dC1 : EntryCreate := ⟨"lea", "1", 1, 1, none, 1, none, none⟩

/-- Store after running `addToCollection exStore 7 dC1`. -/
def s2C1 : Store :=
  { exStore with entries := [⟨1, "LEA", "1", 1, 1, none, 1, none, 7, some 1⟩] }

/-- Response of `addToCollection exStore 7 dC1`. -/
def respC1 : EntryResponse :=
  ⟨1, "LEA", "1", 1, 1, none, 1, none, "Bolt", "Binder", some 1⟩

/-- Witness for C1 at a concrete input: the empty binder assigns position
1 = max(0) + 1. -/
theorem c1_add_position_policy_witness :
    ∃ p : Int, respC1.position = some p ∧
      (∃ e, s2C1.entries = exStore.entries ++ [e] ∧ e.position = some p) ∧
      ((∃ e0 ∈ exStore.entries, e0.container_id = 1 ∧ e0.user_id = 7 ∧
          entryName exStore e0 = some "Bolt" ∧ e0.position = some p) ∨
       ((∀ e0 ∈ exStore.entries, e0.container_id = 1 → e0.user_id = 7 →
           entryName exStore e0 = some "Bolt" → e0.position = none) ∧
        p = (maxPositionQ exStore 1 7).getD 0 + 1)) :=
  c1_add_position_policy exStore 7 dC1 s2C1 respC1
    ⟨"LEA", "1", "Bolt", "C"⟩ ⟨1, "Binder", 1, none, 0, 7, 3, false⟩
    rfl (by decide) (by decide) (by decide) (by decide) rfl

/-- Store holding one English Bolt at position 3 in the binder. -/
def sC9 : Store :=
  { exStore with entries := [⟨1, "LEA", "1", 1, 2, none, 1, none, 7, some 3⟩] }

/-- Add request: a Japanese variant of Bolt, no explicit position. -/
def dC9 : EntryCreate := ⟨"LEA", "1", 1, 1, none, 2, none, none⟩

/-- Store after running `addToCollection sC9 7 dC9`. -/
def s2C9 : Store :=
  { sC9 with entries := [⟨1, "LEA", "1", 1, 2, none, 1, none, 7, some 3⟩,
                         ⟨2, "LEA", "1", 1, 1, none, 2, none, 7, some 3⟩] }

/-- Response of `addToCollection sC9 7 dC9`. -/
def respC9 : EntryResponse :=
  ⟨2, "LEA", "1", 1, 1, none, 2, none, "Bolt", "Binder", some 3⟩

/-- Witness for C9 at a concrete input: the Japanese variant reuses
position 3 and the max position stays 3. -/
theorem c9_variant_add_keeps_max_witness :
    (∃ e, s2C9.entries = sC9.entries ++ [e] ∧ e.position = some (3 : Int)) ∧
    maxPositionQ s2C9 1 7 = maxPositionQ sC9 1 7 :=
  c9_variant_add_keeps_max sC9 7 dC9 s2C9 respC9
    ⟨"LEA", "1", "Bolt", "C"⟩ ⟨1, "Binder", 1, none, 0, 7, 3, false⟩
    ⟨1, "LEA", "1", 1, 2, none, 1, none, 7, some 3⟩ 3
    rfl (by decide) (by decide) (by decide) (by decide) (by decide)
    (by decide) (by decide) rfl

/-- Date sentinel of COALESCE(Set.release_date, '9999-12-31'). -/
def sentinelDate : Nat := 99991231

/-- Release-date component of the ORDER BY key: the LEFT-JOINed set row's
release_date, with NULL or a missing row coalesced to the sentinel. -/
def releaseKey (s : Store) (e : EntryRow) : Nat :=
  match findSet s e.set_code with
  | some st => st.release_date.getD sentinelDate
  | none => sentinelDate

/-- ORDER BY key of the binder queries when an 'english' language row is
configured: (language_id != english_id, coalesced release date, entry id),
all ascending. -/
def repKey (engId : Nat) (s : Store) (e : EntryRow) : Nat × Nat × Nat :=
  (if e.language_id == engId then 0 else 1, releaseKey s e, e.id)

/-- Degenerate ORDER BY key used when no 'english' language row exists (the
Python conditional inserts CollectionEntry.id as the first sort column). -/
def idKey (s : Store) (e : EntryRow) : Nat × Nat × Nat :=
  (e.id, releaseKey s e, e.id)

/-- Lexicographic comparison of the key triples. -/
def keyLE (a b : Nat × Nat × Nat) : Bool :=
  a.1 < b.1 || (a.1 == b.1 &&
    (a.2.1 < b.2.1 || (a.2.1 == b.2.1 && a.2.2 ≤ b.2.2)))

/-- The raw filter of the entries-at-one-position queries. -/
def entriesAtPosFilter (s : Store) (cid uid : Nat) (pos : Int) : List EntryRow :=
  s.entries.filter (fun e =>
    e.container_id == cid && e.user_id == uid && e.position == some pos)

/-- Entries at one (container, user, position) in the ORDER BY order used by
get_entries_at_position and get_binder_page (collection.py lines 510-522,
570-582, 708-720): English first, oldest coalesced release date, entry id;
a stable sort models the SQL ORDER BY. -/
def entriesAtPos (s : Store) (cid uid : Nat) (pos : Int) : List EntryRow :=
  match englishId s with
  | some engId =>
    List.insertionSort
      (fun a b => keyLE (repKey engId s a) (repKey engId s b) = true)
      (entriesAtPosFilter s cid uid pos)
  | none =>
    List.insertionSort
      (fun a b => keyLE (idKey s a) (idKey s b) = true)
      (entriesAtPosFilter s cid uid pos)

/-- SELECT DISTINCT position ... ORDER BY position over the user's
positioned entries of one container (collection.py lines 491-496). -/
def distinctPositions (s : Store) (cid uid : Nat) : List Int :=
  (((s.entries.filter (fun e =>
      e.container_id == cid && e.user_id == uid && e.position.isSome)).filterMap
        (fun e => e.position)).dedup).insertionSort (fun a b => a ≤ b)

/-- One slot of a rendered binder page. -/
structure BinderSlot where
  position : Int
  entry_id : Option Nat
  set_code : Option String
  card_number : Option String
  card_name : Option String
  quantity : Int
  finish_name : Option String
  language_name : Option String
  is_empty : Bool
  overflow_count : Option Nat
deriving DecidableEq, Repr

/-- BinderSlot with only a position (all other fields at their defaults). -/
def emptySlot (pos : Int) : BinderSlot :=
  ⟨pos, none, none, none, none, 0, none, none, true, none⟩

/-- Number of entries at one position (the overflow-count query,
collection.py lines 593-597). -/
def countAtPos (s : Store) (cid uid : Nat) (pos : Int) : Nat :=
  (entriesAtPosFilter s cid uid pos).length

/-- Display name of an entry's finish: only looked up when finish_id is
set; None otherwise. -/
def slotFinishName (s : Store) (e : EntryRow) : Option String :=
  match e.finish_id with
  | some fid => (findFinish s fid).map (fun f => f.name)
  | none => none

/-- Display name of an entry's language ('Unknown' when the row is absent). -/
def slotLanguageName (s : Store) (e : EntryRow) : String :=
  match findLanguage s e.language_id with
  | some l => l.name
  | none => "Unknown"

/-- Display name of an entry's card ('Unknown' when the row is absent). -/
def slotCardName (s : Store) (e : EntryRow) : String :=
  match findCard s e.set_code e.card_number with
  | some c => c.name
  | none => "Unknown"

/-- A filled slot of fill-row mode (collection.py lines 532-542): no
overflow count. -/
def mkFillSlot (s : Store) (pos : Int) (e : EntryRow) : BinderSlot :=
  { position := pos, entry_id := some e.id, set_code := some e.set_code,
    card_number := some e.card_number, card_name := some (slotCardName s e),
    quantity := e.quantity, finish_name := slotFinishName s e,
    language_name := some (slotLanguageName s e), is_empty := false,
    overflow_count := none }

/-- A filled slot of single-representative mode (collection.py lines
593-610), carrying the overflow count when more than one entry shares the
position. -/
def mkSingleSlot (s : Store) (cid uid : Nat) (pos : Int) (e : EntryRow) :
    BinderSlot :=
  { position := pos, entry_id := some e.id, set_code := some e.set_code,
    card_number := some e.card_number, card_name := some (slotCardName s e),
    quantity := e.quantity, finish_name := slotFinishName s e,
    language_name := some (slotLanguageName s e), is_empty := false,
    overflow_count :=
      if 1 < countAtPos s cid uid pos then some (countAtPos s cid uid pos - 1)
      else none }

/-- The slot emitted for one window position in single-representative mode
(collection.py lines 566-614). -/
def singleSlotFor (s : Store) (cid uid : Nat) (pos : Int) : BinderSlot :=
  if pos ∈ distinctPositions s cid uid then
    match (entriesAtPos s cid uid pos).head? with
    | some e => mkSingleSlot s cid uid pos e
    | none => emptySlot pos
  else emptySlot pos

/-- Effective column count: `container.binder_columns or 3`. -/
def binderColumns (c : ContainerRow) : Nat :=
  if c.binder_columns == 0 then 3 else c.binder_columns

/-- rows = 2 if columns == 2 else 3. -/
def binderRows (c : ContainerRow) : Nat :=
  if binderColumns c == 2 then 2 else 3

/-- slots_per_page = columns * rows. -/
def slotsPerPage (c : ContainerRow) : Nat := binderColumns c * binderRows c

/-- The flat expanded slot list of fill-row mode (collection.py lines
506-542): every distinct position contributes up to 4 entries in
representative order. -/
def expandedSlots (s : Store) (cid uid : Nat) : List BinderSlot :=
  (distinctPositions s cid uid).flatMap (fun pos =>
    ((entriesAtPos s cid uid pos).take 4).map (fun e => mkFillSlot s pos e))

/-- Response of GET /collection/binder/{container_id}/page/{page}. -/
structure BinderPageResponse where
  container_id : Nat
  container_name : String
  page : Nat
  total_pages : Int
  slots : List BinderSlot
  max_position : Int
  binder_columns : Nat
  binder_fill_row : Bool
deriving DecidableEq, Repr

/-- GET /collection/binder/{container_id}/page/{page} (`get_binder_page`,
collection.py lines 458-625).  The `page` path parameter is modelled as a
Nat: the route's default is 1 and the claims concern pages >= 1. -/
def getBinderPage (s : Store) (uid cid : Nat) (page : Nat) :
    Except ApiError BinderPageResponse :=
  match findContainerById s cid with
  | none => .error (.notFound "Container not found")
  | some container =>
    if containerIsFile s container then
      let spp := slotsPerPage container
      let dps := distinctPositions s cid uid
      let max_position : Int := (dps.max?).getD 0
      if container.binder_fill_row then
        let all_expanded := expandedSlots s cid uid
        let total_pages : Int :=
          max 1 (((all_expanded.length : Int) + spp - 1).fdiv spp)
        let start_idx := (page - 1) * spp
        let pageSlots := (all_expanded.drop start_idx).take spp
        let slots := pageSlots ++
          List.replicate (spp - pageSlots.length) (emptySlot 0)
        .ok { container_id := cid, container_name := container.name,
              page := page, total_pages := total_pages, slots := slots,
              max_position := max_position,
              binder_columns := binderColumns container,
              binder_fill_row := container.binder_fill_row }
      else
        let start_position : Int := ((page : Int) - 1) * spp + 1
        let total_pages : Int :=
          max 1 ((max_position + spp - 1).fdiv spp)
        let slots := (List.range spp).map (fun i : Nat =>
          singleSlotFor s cid uid (start_position + (i : Int)))
        .ok { container_id := cid, container_name := container.name,
              page := page, total_pages := total_pages, slots := slots,
              max_position := max_position,
              binder_columns := binderColumns container,
              binder_fill_row := container.binder_fill_row }
    else .error (.badRequest "Binder view is only available for file containers")

/-- One row of the position-detail response. -/
structure PositionEntryResp where
  entry_id : Nat
  set_code : String
  card_number : String
  card_name : String
  quantity : Int
  finish_name : Option String
  language_name : String
  release_date : Option Nat
deriving DecidableEq, Repr

/-- Response of GET /collection/binder/{container_id}/position/{position}. -/
structure PositionEntriesResp where
  position : Int
  card_name : String
  entries : List PositionEntryResp
  total_quantity : Int
deriving DecidableEq, Repr

/-- GET /collection/binder/{container_id}/position/{position}
(`get_entries_at_position`, collection.py lines 691-760).  Note: the
handler looks the container up by id alone and never checks its type. -/
def getEntriesAtPosition (s : Store) (uid cid : Nat) (pos : Int) :
    Except ApiError PositionEntriesResp :=
  match findContainerById s cid with
  | none => .error (.notFound "Container not found")
  | some _ =>
    match entriesAtPos s cid uid pos with
    | [] => .error (.notFound "No entries at this position")
    | first :: rest =>
      let entries := first :: rest
      .ok { position := pos,
            card_name := slotCardName s first,
            entries := entries.map (fun e =>
              { entry_id := e.id, set_code := e.set_code,
                card_number := e.card_number, card_name := slotCardName s e,
                quantity := e.quantity, finish_name := slotFinishName s e,
                language_name := slotLanguageName s e,
                release_date := (findSet s e.set_code).bind
                  (fun st => st.release_date) }),
            total_quantity := (entries.map (fun e => e.quantity)).sum }

/-- One item of the bulk reposition request body. -/
structure PositionUpdate where
  entry_id : Nat
  position : Option Int
deriving DecidableEq, Repr

/-- One iteration of the bulk reposition loop (collection.py lines
655-664): the entry is matched by id, container and user; a hit sets its
position (possibly to NULL) and counts. -/
def applyPositionUpdate (cid uid : Nat) (acc : Store × Nat)
    (u : PositionUpdate) : Store × Nat :=
  match acc.1.entries.find? (fun e =>
      e.id == u.entry_id && e.container_id == cid && e.user_id == uid) with
  | some entry =>
    ({ acc.1 with entries := (updateEntry acc.1.entries entry.id
        (fun e => { e with position := u.position })) }, acc.2 + 1)
  | none => acc

/-- POST /collection/binder/{container_id}/positions
(`update_binder_positions`, collection.py lines 642-668).  Note: the
handler checks only that the container exists; it never checks its type. -/
def updateBinderPositions (s : Store) (uid cid : Nat)
    (updates : List PositionUpdate) : Except ApiError (Store × Nat) :=
  match findContainerById s cid with
  | none => .error (.notFound "Container not found")
  | some _ =>
    .ok (updates.foldl (applyPositionUpdate cid uid) (s, 0))

theorem keyLE_trans {a b c : Nat × Nat × Nat} (h1 : keyLE a b = true)
    (h2 : keyLE b c = true) : keyLE a c = true := by
  rcases a with ⟨a1, a2, a3⟩; rcases b with ⟨b1, b2, b3⟩
  rcases c with ⟨c1, c2, c3⟩
  simp only [keyLE, Bool.or_eq_true, Bool.and_eq_true, decide_eq_true_eq,
    beq_iff_eq] at h1 h2 ⊢
  omega

theorem keyLE_total (a b : Nat × Nat × Nat) :
    keyLE a b = true ∨ keyLE b a = true := by
  rcases a with ⟨a1, a2, a3⟩; rcases b with ⟨b1, b2, b3⟩
  simp only [keyLE, Bool.or_eq_true, Bool.and_eq_true, decide_eq_true_eq,
    beq_iff_eq]
  omega

theorem keyLE_antisymm {a b : Nat × Nat × Nat} (h1 : keyLE a b = true)
    (h2 : keyLE b a = true) : a = b := by
  rcases a with ⟨a1, a2, a3⟩; rcases b with ⟨b1, b2, b3⟩
  simp only [keyLE, Bool.or_eq_true, Bool.and_eq_true, decide_eq_true_eq,
    beq_iff_eq] at h1 h2
  simp only [Prod.mk.injEq]
  omega

/-- C3 (amended): with a configured English language id, the
representative order on the entries of one (container, position) group is
given by the key (language is not English, release date with missing set
or null date as the sentinel 9999-12-31, entry id), all ascending; the
order is total, deterministic (antisymmetric up to entry id), the endpoint
lists entries sorted by it, and an entry whose set row carries a release
date strictly before the sentinel precedes an entry whose set row is
absent when both have the same language key.  (The unqualified claim that
a dated set always precedes a missing set fails when the stored date
equals the sentinel 9999-12-31; see the counterexample.) -/
theorem c3_rep_order_amended
    (s : Store) (engId cid uid : Nat) (pos : Int)
    (heng : englishId s = some engId) :
    (∀ e1 e2 : EntryRow,
      keyLE (repKey engId s e1) (repKey engId s e2) = true ∨
      keyLE (repKey engId s e2) (repKey engId s e1) = true) ∧
    (∀ e1 e2 : EntryRow,
      keyLE (repKey engId s e1) (repKey engId s e2) = true →
      keyLE (repKey engId s e2) (repKey engId s e1) = true →
      e1.id = e2.id) ∧
    List.Pairwise
      (fun a b => keyLE (repKey engId s a) (repKey engId s b) = true)
      (entriesAtPos s cid uid pos) ∧
    (∀ e1 e2 : EntryRow, ∀ st : SetRow, ∀ dt : Nat,
      ((e1.language_id = engId) ↔ (e2.language_id = engId)) →
      findSet s e1.set_code = some st → st.release_date = some dt →
      dt < sentinelDate → findSet s e2.set_code = none →
      (keyLE (repKey engId s e1) (repKey engId s e2) = true ∧
       keyLE (repKey engId s e2) (repKey engId s e1) = false)) := by
  refine ⟨fun e1 e2 => keyLE_total _ _, ?_, ?_, ?_⟩
  · intro e1 e2 h1 h2
    have h := keyLE_antisymm h1 h2
    have : (repKey engId s e1).2.2 = (repKey engId s e2).2.2 := by rw [h]
    simpa [repKey] using this
  · haveI : IsTotal EntryRow
        (fun a b => keyLE (repKey engId s a) (repKey engId s b) = true) :=
      ⟨fun a b => keyLE_total _ _⟩
    haveI : IsTrans EntryRow
        (fun a b => keyLE (repKey engId s a) (repKey engId s b) = true) :=
      ⟨fun a b c h1 h2 => keyLE_trans h1 h2⟩
    have hsorted := List.sorted_insertionSort
      (fun a b => keyLE (repKey engId s a) (repKey engId s b) = true)
      (entriesAtPosFilter s cid uid pos)
    simpa [entriesAtPos, heng] using hsorted
  · intro e1 e2 st dt hlang hst hdt hlt hmiss
    have h1 : releaseKey s e1 = dt := by
      simp [releaseKey, hst, hdt]
    have h2 : releaseKey s e2 = sentinelDate := by
      simp [releaseKey, hmiss]
    by_cases hl1 : e1.language_id = engId
    · have hl2 : e2.language_id = engId := hlang.mp hl1
      constructor <;>
        simp [keyLE, repKey, h1, h2, hl1, hl2, Nat.lt_irrefl, hlt,
          Nat.not_lt.mpr (Nat.le_of_lt hlt)] <;> omega
    · have hl2 : ¬ e2.language_id = engId := fun h => hl1 (hlang.mpr h)
      constructor <;>
        simp [keyLE, repKey, h1, h2, hl1, hl2, Nat.lt_irrefl, hlt,
          Nat.not_lt.mpr (Nat.le_of_lt hlt)] <;> omega

/-- Entry whose set row exists and has release date 9999-12-31. -/
def eC3dated : EntryRow := ⟨2, "OLD", "1", 1, 1, none, 1, none, 7, some 1⟩

/-- Entry whose set row is absent. -/
def eC3missing : EntryRow := ⟨1, "GONE", "2", 1, 1, none, 1, none, 7, some 1⟩

/-- Store for the C3 counterexample: two entries at the same binder
position, same (English) language, one with a set row dated 9999-12-31 and
one with no set row at all. -/
def sC3 : Store :=
  { cards := [⟨"OLD", "1", "Bolt", "C"⟩, ⟨"GONE", "2", "Bolt", "C"⟩],
    sets := [⟨"OLD", "Old Set", some sentinelDate⟩],
    languages := [⟨1, "en", "English"⟩],
    finishes := [], containerTypes := [⟨1, "file"⟩],
    containers := [⟨1, "Binder", 1, none, 0, 7, 3, false⟩],
    entries := [eC3missing, eC3dated] }

/-- Counterexample to C3 as stated: with equal language keys, the entry
whose set row carries a (maximal, 9999-12-31) release date does NOT
precede the entry whose set row is absent; the COALESCE sentinel ties and
the lower entry id wins, so the set-less entry comes first. -/
theorem c3_counterexample :
    englishId sC3 = some 1 ∧
    eC3dated.language_id = eC3missing.language_id ∧
    (∃ st : SetRow, findSet sC3 eC3dated.set_code = some st ∧
      ∃ dt : Nat, st.release_date = some dt) ∧
    findSet sC3 eC3missing.set_code = none ∧
    entriesAtPos sC3 1 7 1 = [eC3missing, eC3dated] ∧
    keyLE (repKey 1 sC3 eC3dated) (repKey 1 sC3 eC3missing) = false :=
  ⟨by decide, by decide, ⟨⟨"OLD", "Old Set", some sentinelDate⟩, by decide,
    sentinelDate, by decide⟩, by decide, by decide, by decide⟩

/-- Witness for the amended C3 at a concrete input: the endpoint's entry
list for the example store is sorted by the representative key. -/
theorem c3_rep_order_amended_witness :
    List.Pairwise (fun a b => keyLE (repKey 1 sC3 a) (repKey 1 sC3 b) = true)
      (entriesAtPos sC3 1 7 1) :=
  (c3_rep_order_amended sC3 1 1 7 1 (by decide)).2.2.1

/-- C8 (amended): the page-render endpoint fails NotFound for a missing
container and InvalidOperation (a 400 client error) for an existing
non-'file' container; the position-detail and bulk-reposition endpoints
fail NotFound for a missing container but perform no container-type
check: position detail succeeds on any existing container whenever
entries exist at the position, and bulk reposition succeeds on any
existing container.  Errors return without a store. -/
theorem c8_binder_endpoint_errors_amended :
    (∀ (s : Store) (uid cid page : Nat), findContainerById s cid = none →
      getBinderPage s uid cid page =
        .error (.notFound "Container not found")) ∧
    (∀ (s : Store) (uid cid page : Nat) (c : ContainerRow),
      findContainerById s cid = some c → containerIsFile s c = false →
      getBinderPage s uid cid page = .error
        (.badRequest "Binder view is only available for file containers")) ∧
    (∀ (s : Store) (uid cid : Nat) (pos : Int),
      findContainerById s cid = none →
      getEntriesAtPosition s uid cid pos =
        .error (.notFound "Container not found")) ∧
    (∀ (s : Store) (uid cid : Nat) (updates : List PositionUpdate),
      findContainerById s cid = none →
      updateBinderPositions s uid cid updates =
        .error (.notFound "Container not found")) ∧
    (∀ (s : Store) (uid cid : Nat) (pos : Int) (c : ContainerRow),
      findContainerById s cid = some c → entriesAtPos s cid uid pos ≠ [] →
      (getEntriesAtPosition s uid cid pos).isOk = true) ∧
    (∀ (s : Store) (uid cid : Nat) (updates : List PositionUpdate)
      (c : ContainerRow), findContainerById s cid = some c →
      (updateBinderPositions s uid cid updates).isOk = true) := by
  refine ⟨?_, ?_, ?_, ?_, ?_, ?_⟩
  · intro s uid cid page h
    simp [getBinderPage, h]
  · intro s uid cid page c h1 h2
    simp [getBinderPage, h1, h2]
  · intro s uid cid pos h
    simp [getEntriesAtPosition, h]
  · intro s uid cid updates h
    simp [updateBinderPositions, h]
  · intro s uid cid pos c h1 h2
    cases hl : entriesAtPos s cid uid pos with
    | nil => exact absurd hl h2
    | cons first rest =>
      simp [getEntriesAtPosition, h1, hl, Except.isOk, Except.toBool]
  · intro s uid cid updates c h1
    simp [updateBinderPositions, h1, Except.isOk, Except.toBool]

/-- Store for the C8 counterexample: a 'box' (non-file) container 2 of
user 7 holding one entry at position 5. -/
def sC8 : Store :=
  { cards := [⟨"LEA", "1", "Bolt", "C"⟩], sets := [],
    languages := [⟨1, "en", "English"⟩], finishes := [],
    containerTypes := [⟨2, "box"⟩],
    containers := [⟨2, "Box", 2, none, 0, 7, 3, false⟩],
    entries := [⟨1, "LEA", "1", 2, 1, none, 1, none, 7, some 5⟩] }

/-- Counterexample to C8 as stated: on an existing non-'file' container
the position-detail endpoint succeeds instead of failing with
InvalidOperation, and the bulk-reposition endpoint succeeds and mutates
the store (the entry's position changes from 5 to 9). -/
theorem c8_counterexample :
    containerIsFile sC8 ⟨2, "Box", 2, none, 0, 7, 3, false⟩ = false ∧
    findContainerById sC8 2 = some ⟨2, "Box", 2, none, 0, 7, 3, false⟩ ∧
    (getEntriesAtPosition sC8 7 2 5).isOk = true ∧
    updateBinderPositions sC8 7 2 [⟨1, some 9⟩] =
      .ok ({ sC8 with
        entries := [⟨1, "LEA", "1", 2, 1, none, 1, none, 7, some 9⟩] }, 1) :=
  ⟨by decide, by decide, by rfl, by rfl⟩

/-- Witness for the amended C8 at concrete inputs. -/
theorem c8_binder_endpoint_errors_amended_witness :
    getBinderPage sC8 7 99 1 = .error (.notFound "Container not found") ∧
    getBinderPage sC8 7 2 1 = .error
      (.badRequest "Binder view is only available for file containers") ∧
    getEntriesAtPosition sC8 7 99 5 =
      .error (.notFound "Container not found") ∧
    updateBinderPositions sC8 7 99 [] =
      .error (.notFound "Container not found") ∧
    (getEntriesAtPosition sC8 7 2 5).isOk = true ∧
    (updateBinderPositions sC8 7 2 []).isOk = true :=
  ⟨c8_binder_endpoint_errors_amended.1 sC8 7 99 1 (by decide),
   c8_binder_endpoint_errors_amended.2.1 sC8 7 2 1
     ⟨2, "Box", 2, none, 0, 7, 3, false⟩ (by decide) (by decide),
   c8_binder_endpoint_errors_amended.2.2.1 sC8 7 99 5 (by decide),
   c8_binder_endpoint_errors_amended.2.2.2.1 sC8 7 99 [] (by decide),
   c8_binder_endpoint_errors_amended.2.2.2.2.1 sC8 7 2 5
     ⟨2, "Box", 2, none, 0, 7, 3, false⟩ (by decide) (by decide),
   c8_binder_endpoint_errors_amended.2.2.2.2.2 sC8 7 2 []
     ⟨2, "Box", 2, none, 0, 7, 3, false⟩ (by decide)⟩

theorem entriesAtPos_perm (s : Store) (cid uid : Nat) (pos : Int) :
    (entriesAtPos s cid uid pos).Perm (entriesAtPosFilter s cid uid pos) := by
  unfold entriesAtPos
  cases englishId s <;> exact List.perm_insertionSort _ _

theorem mem_entriesAtPosFilter {s : Store} {cid uid : Nat} {pos : Int}
    {e : EntryRow} :
    e ∈ entriesAtPosFilter s cid uid pos ↔
    e ∈ s.entries ∧ e.container_id = cid ∧ e.user_id = uid ∧
      e.position = some pos := by
  simp [entriesAtPosFilter, List.mem_filter, and_assoc]

theorem mem_distinctPositions {s : Store} {cid uid : Nat} {p : Int} :
    p ∈ distinctPositions s cid uid ↔
    ∃ e, e ∈ s.entries ∧ e.container_id = cid ∧ e.user_id = uid ∧
      e.position = some p := by
  unfold distinctPositions
  rw [(List.perm_insertionSort _ _).mem_iff, List.mem_dedup, List.mem_filterMap]
  constructor
  · rintro ⟨e, he, hp⟩
    rw [List.mem_filter] at he
    obtain ⟨he1, he2⟩ := he
    simp only [Bool.and_eq_true, beq_iff_eq] at he2
    exact ⟨e, he1, he2.1.1, he2.1.2, hp⟩
  · rintro ⟨e, he, h1, h2, h3⟩
    refine ⟨e, ?_, h3⟩
    rw [List.mem_filter]
    exact ⟨he, by simp [h1, h2, h3]⟩

theorem distinctPositions_nodup (s : Store) (cid uid : Nat) :
    (distinctPositions s cid uid).Nodup :=
  ((List.perm_insertionSort _ _).nodup_iff).mpr (List.nodup_dedup _)

theorem distinctPositions_sorted (s : Store) (cid uid : Nat) :
    List.Pairwise (fun a b : Int => a ≤ b) (distinctPositions s cid uid) :=
  List.sorted_insertionSort (fun a b : Int => a ≤ b) _

theorem entriesAtPos_ne_nil_of_mem {s : Store} {cid uid : Nat} {p : Int}
    (h : p ∈ distinctPositions s cid uid) :
    entriesAtPos s cid uid p ≠ [] := by
  obtain ⟨e, he, h1, h2, h3⟩ := mem_distinctPositions.mp h
  intro hnil
  have hmem : e ∈ entriesAtPos s cid uid p :=
    (entriesAtPos_perm s cid uid p).mem_iff.mpr
      (mem_entriesAtPosFilter.mpr ⟨he, h1, h2, h3⟩)
  rw [hnil] at hmem
  exact absurd hmem (List.not_mem_nil e)

theorem singleSlotFor_position (s : Store) (cid uid : Nat) (pos : Int) :
    (singleSlotFor s cid uid pos).position = pos := by
  unfold singleSlotFor
  split
  · cases h : (entriesAtPos s cid uid pos).head? <;>
      simp [mkSingleSlot, emptySlot]
  · simp [emptySlot]

theorem singleSlotFor_empty_iff (s : Store) (cid uid : Nat) (pos : Int) :
    ((singleSlotFor s cid uid pos).is_empty = true) ↔
    ¬ ∃ e, e ∈ s.entries ∧ e.container_id = cid ∧ e.user_id = uid ∧
        e.position = some pos := by
  unfold singleSlotFor
  by_cases hmem : pos ∈ distinctPositions s cid uid
  · rw [if_pos hmem]
    cases hh : (entriesAtPos s cid uid pos).head? with
    | none =>
      rw [List.head?_eq_none_iff] at hh
      exact absurd hh (entriesAtPos_ne_nil_of_mem hmem)
    | some e =>
      simp only [mkSingleSlot, Bool.false_eq_true, false_iff, not_not]
      exact mem_distinctPositions.mp hmem
  · rw [if_neg hmem]
    simp only [emptySlot, true_iff]
    exact fun hex => hmem (mem_distinctPositions.mpr hex)

theorem singleSlotFor_overflow (s : Store) (cid uid : Nat) (pos : Int)
    (hne : (singleSlotFor s cid uid pos).is_empty = false) :
    (singleSlotFor s cid uid pos).overflow_count =
      (if 1 < countAtPos s cid uid pos
       then some (countAtPos s cid uid pos - 1) else none) := by
  unfold singleSlotFor at hne ⊢
  by_cases hmem : pos ∈ distinctPositions s cid uid
  · rw [if_pos hmem] at hne ⊢
    cases hh : (entriesAtPos s cid uid pos).head? with
    | none => rw [hh] at hne; simp [emptySlot] at hne
    | some e => simp [mkSingleSlot]
  · rw [if_neg hmem] at hne; simp [emptySlot] at hne

/-- C4: in single-representative mode (fill_row = false) the rendered page
covers exactly the numeric position window [(page-1)*spp + 1, page*spp] in
order, a slot is empty iff no entry of the user occupies that position in
the container, total_pages is the ceiling of max_position / spp with
minimum 1, and a filled slot carries overflow_count = entries-at-position
minus 1 exactly when more than one entry shares the position. -/
theorem c4_single_mode_page
    (s : Store) (uid cid page : Nat) (c : ContainerRow)
    (resp : BinderPageResponse)
    (hc : findContainerById s cid = some c)
    (hfile : containerIsFile s c = true)
    (hfr : c.binder_fill_row = false)
    (hrun : getBinderPage s uid cid page = .ok resp) :
    resp.slots.length = slotsPerPage c ∧
    resp.max_position = ((distinctPositions s cid uid).max?).getD 0 ∧
    resp.total_pages =
      max 1 ((resp.max_position + (slotsPerPage c : Int) - 1).fdiv
        (slotsPerPage c)) ∧
    (∀ i : Nat, i < slotsPerPage c →
      ∃ slot : BinderSlot, resp.slots[i]? = some slot ∧
        slot.position = ((page : Int) - 1) * (slotsPerPage c) + 1 + i ∧
        (slot.is_empty = true ↔
          ¬ ∃ e, e ∈ s.entries ∧ e.container_id = cid ∧ e.user_id = uid ∧
              e.position = some slot.position) ∧
        (slot.is_empty = false →
          slot.overflow_count =
            (if 1 < countAtPos s cid uid slot.position
             then some (countAtPos s cid uid slot.position - 1)
             else none))) := by
  simp only [getBinderPage, hc, hfile, hfr, if_true, if_false,
    Bool.false_eq_true] at hrun
  rw [Except.ok.injEq] at hrun
  subst hrun
  refine ⟨?_, rfl, rfl, ?_⟩
  · simp [List.length_map, List.length_range]
  · intro i hi
    refine ⟨singleSlotFor s cid uid
      (((page : Int) - 1) * (slotsPerPage c) + 1 + i), ?_, ?_, ?_, ?_⟩
    · simp [List.getElem?_map, List.getElem?_range, hi]
    · exact singleSlotFor_position s cid uid _
    · rw [singleSlotFor_position]
      exact singleSlotFor_empty_iff s cid uid _
    · rw [singleSlotFor_position]
      exact singleSlotFor_overflow s cid uid _

/-- Store for the C4 witness: a 3-column binder whose only positioned
entry sits at position 10 (the claim's pagination-boundary example). -/
def sC4 : Store :=
  { cards := [⟨"LEA", "1", "Bolt", "C"⟩], sets := [],
    languages := [⟨1, "en", "English"⟩], finishes := [],
    containerTypes := [⟨1, "file"⟩],
    containers := [⟨3, "Binder", 1, none, 0, 7, 3, false⟩],
    entries := [⟨1, "LEA", "1", 3, 1, none, 1, none, 7, some 10⟩] }

/-- The rendered page 2 of the C4 witness store. -/
def respC4 : BinderPageResponse :=
  ((getBinderPage sC4 7 3 2).toOption).getD ⟨0, "", 0, 0, [], 0, 0, false⟩

/-- Witness for C4 at the claim's own example: columns=3, fill_row=false,
the only position is 10; page 2 renders window [10, 18] with total_pages 2
and exactly one filled slot, at position 10. -/
theorem c4_single_mode_page_witness :
    getBinderPage sC4 7 3 2 = .ok respC4 ∧
    respC4.total_pages = 2 ∧ respC4.max_position = 10 ∧
    ((respC4.slots.filter (fun sl => !sl.is_empty)).map
      (fun sl => sl.position)) = [10] ∧
    (respC4.slots.length = slotsPerPage ⟨3, "Binder", 1, none, 0, 7, 3, false⟩ ∧
     respC4.max_position = ((distinctPositions sC4 3 7).max?).getD 0 ∧
     respC4.total_pages = max 1 ((respC4.max_position +
       (slotsPerPage ⟨3, "Binder", 1, none, 0, 7, 3, false⟩ : Int) - 1).fdiv
         (slotsPerPage ⟨3, "Binder", 1, none, 0, 7, 3, false⟩)) ∧
     (∀ i : Nat, i < slotsPerPage ⟨3, "Binder", 1, none, 0, 7, 3, false⟩ →
       ∃ slot : BinderSlot, respC4.slots[i]? = some slot ∧
         slot.position = ((2 : Int) - 1) *
           (slotsPerPage ⟨3, "Binder", 1, none, 0, 7, 3, false⟩) + 1 + i ∧
         (slot.is_empty = true ↔
           ¬ ∃ e, e ∈ sC4.entries ∧ e.container_id = 3 ∧ e.user_id = 7 ∧
               e.position = some slot.position) ∧
         (slot.is_empty = false →
           slot.overflow_count =
             (if 1 < countAtPos sC4 3 7 slot.position
              then some (countAtPos sC4 3 7 slot.position - 1)
              else none)))) :=
  ⟨by rfl, by decide, by decide, by decide,
   c4_single_mode_page sC4 7 3 2 ⟨3, "Binder", 1, none, 0, 7, 3, false⟩
     respC4 (by decide) (by decide) (by decide) (by rfl)⟩

theorem mem_expandedSlots_position {s : Store} {cid uid : Nat}
    {sl : BinderSlot} (h : sl ∈ expandedSlots s cid uid) :
    sl.position ∈ distinctPositions s cid uid := by
  rw [expandedSlots, List.mem_flatMap] at h
  obtain ⟨p, hp, hsl⟩ := h
  rw [List.mem_map] at hsl
  obtain ⟨e, he, rfl⟩ := hsl
  simpa [mkFillSlot] using hp

theorem expandedSlots_pairwise (s : Store) (cid uid : Nat) :
    List.Pairwise (fun a b : BinderSlot => a.position ≤ b.position)
      (expandedSlots s cid uid) := by
  rw [expandedSlots, List.flatMap_def, List.pairwise_flatten]
  constructor
  · intro l hl
    rw [List.mem_map] at hl
    obtain ⟨p, hp, rfl⟩ := hl
    apply List.pairwise_of_forall_mem_list
    intro a ha b hb
    rw [List.mem_map] at ha hb
    obtain ⟨ea, _, rfl⟩ := ha
    obtain ⟨eb, _, rfl⟩ := hb
    simp [mkFillSlot]
  · rw [List.pairwise_map]
    refine (distinctPositions_sorted s cid uid).imp ?_
    intro a b hab x hx y hy
    rw [List.mem_map] at hx hy
    obtain ⟨ea, _, rfl⟩ := hx
    obtain ⟨eb, _, rfl⟩ := hy
    simpa [mkFillSlot] using hab

theorem flatMap_filter_group {l : List Int} (hnd : l.Nodup) {p : Int}
    (hp : p ∈ l) (g : Int → List BinderSlot)
    (hpos : ∀ a ∈ l, ∀ sl ∈ g a, sl.position = a) :
    (l.flatMap g).filter (fun sl => sl.position == p) = g p := by
  induction l with
  | nil => cases hp
  | cons x xs ih =>
    rw [List.flatMap_cons, List.filter_append]
    rcases List.mem_cons.mp hp with rfl | hmem
    · have h1 : (g p).filter (fun sl => sl.position == p) = g p := by
        rw [List.filter_eq_self]
        intro sl hsl
        simp [hpos p (List.mem_cons_self p xs) sl hsl]
      have hnotin : p ∉ xs := (List.nodup_cons.mp hnd).1
      have h2 : (xs.flatMap g).filter (fun sl => sl.position == p) = [] := by
        rw [List.filter_eq_nil_iff]
        intro sl hsl
        rw [List.mem_flatMap] at hsl
        obtain ⟨a, ha, hsla⟩ := hsl
        have hsp := hpos a (List.mem_cons_of_mem _ ha) sl hsla
        simp only [hsp, beq_iff_eq]
        rintro rfl
        exact hnotin ha
      rw [h1, h2, List.append_nil]
    · have hxne : x ≠ p := by
        rintro rfl
        exact (List.nodup_cons.mp hnd).1 hmem
      have h1 : (g x).filter (fun sl => sl.position == p) = [] := by
        rw [List.filter_eq_nil_iff]
        intro sl hsl
        have hsp := hpos x (List.mem_cons_self x xs) sl hsl
        simp [hsp, hxne]
      rw [h1, List.nil_append]
      exact ih (List.nodup_cons.mp hnd).2 hmem
        (fun a ha => hpos a (List.mem_cons_of_mem _ ha))

theorem expandedSlots_filter (s : Store) (cid uid : Nat) {p : Int}
    (hp : p ∈ distinctPositions s cid uid) :
    (expandedSlots s cid uid).filter (fun sl => sl.position == p) =
      ((entriesAtPos s cid uid p).take 4).map (fun e => mkFillSlot s p e) := by
  rw [expandedSlots]
  refine flatMap_filter_group (distinctPositions_nodup s cid uid) hp _ ?_
  intro a ha sl hsl
  rw [List.mem_map] at hsl
  obtain ⟨e, he, rfl⟩ := hsl
  simp [mkFillSlot]

theorem expandedSlots_filter_le_four (s : Store) (cid uid : Nat) (p : Int) :
    ((expandedSlots s cid uid).filter
      (fun sl => sl.position == p)).length ≤ 4 := by
  by_cases hp : p ∈ distinctPositions s cid uid
  · rw [expandedSlots_filter s cid uid hp, List.length_map, List.length_take]
    exact Nat.min_le_left 4 _
  · have hz : (expandedSlots s cid uid).filter
        (fun sl => sl.position == p) = [] := by
      rw [List.filter_eq_nil_iff]
      intro sl hsl
      have hmem := mem_expandedSlots_position hsl
      simp only [beq_iff_eq]
      rintro rfl
      exact hp hmem
    simp [hz]

/-- C5: in fill-row mode every distinct position expands to at most 4
entries taken in representative order, the expansions are concatenated in
ascending position order, the requested page is the index slice
[(page-1)*spp, page*spp) of the flat list, total_pages is the ceiling of
the expanded count / spp with minimum 1, and positions beyond the flat
list are filled with empty padding slots of position 0. -/
theorem c5_fill_mode_page
    (s : Store) (uid cid page : Nat) (c : ContainerRow)
    (resp : BinderPageResponse)
    (hc : findContainerById s cid = some c)
    (hfile : containerIsFile s c = true)
    (hfr : c.binder_fill_row = true)
    (hrun : getBinderPage s uid cid page = .ok resp) :
    resp.slots.length = slotsPerPage c ∧
    resp.total_pages = max 1 ((((expandedSlots s cid uid).length : Int) +
      slotsPerPage c - 1).fdiv (slotsPerPage c)) ∧
    List.Pairwise (fun a b : BinderSlot => a.position ≤ b.position)
      (expandedSlots s cid uid) ∧
    (∀ p : Int, p ∈ distinctPositions s cid uid →
      (expandedSlots s cid uid).filter (fun sl => sl.position == p) =
        ((entriesAtPos s cid uid p).take 4).map
          (fun e => mkFillSlot s p e)) ∧
    (∀ p : Int, ((expandedSlots s cid uid).filter
        (fun sl => sl.position == p)).length ≤ 4) ∧
    (∀ i : Nat, i < slotsPerPage c →
      ((page - 1) * slotsPerPage c + i < (expandedSlots s cid uid).length →
        resp.slots[i]? =
          (expandedSlots s cid uid)[(page - 1) * slotsPerPage c + i]?) ∧
      ((expandedSlots s cid uid).length ≤ (page - 1) * slotsPerPage c + i →
        resp.slots[i]? = some (emptySlot 0))) := by
  simp only [getBinderPage, hc, hfile, hfr, if_true] at hrun
  rw [Except.ok.injEq] at hrun
  subst hrun
  set expanded := expandedSlots s cid uid with hexp
  set spp := slotsPerPage c with hspp
  set start := (page - 1) * spp with hstart
  have hplen : ((expanded.drop start).take spp).length =
      min spp (expanded.length - start) := by
    simp [List.length_take, List.length_drop]
  refine ⟨?_, rfl, expandedSlots_pairwise s cid uid,
    fun p hp => expandedSlots_filter s cid uid hp,
    fun p => expandedSlots_filter_le_four s cid uid p, ?_⟩
  · simp only [List.length_append, List.length_replicate, hplen]
    omega
  · intro i hi
    constructor
    · intro hlt
      have hilen : i < ((expanded.drop start).take spp).length := by
        rw [hplen]; omega
      rw [List.getElem?_append, if_pos hilen, List.getElem?_take,
        if_pos hi, List.getElem?_drop]
    · intro hge
      have hilen : ((expanded.drop start).take spp).length ≤ i := by
        rw [hplen]; omega
      rw [List.getElem?_append_right hilen, List.getElem?_replicate,
        if_pos (by omega)]

/-- Store for the C5 witness: a fill-row binder whose position 1 holds six
variants of one card name (six languages). -/
def sC5 : Store :=
  { cards := [⟨"LEA", "1", "Bolt", "C"⟩], sets := [],
    languages := [⟨1, "en", "English"⟩, ⟨2, "jp", "Japanese"⟩],
    finishes := [],
    containerTypes := [⟨1, "file"⟩],
    containers := [⟨1, "Binder", 1, none, 0, 7, 3, true⟩],
    entries := [⟨1, "LEA", "1", 1, 1, none, 1, none, 7, some 1⟩,
                ⟨2, "LEA", "1", 1, 1, none, 2, none, 7, some 1⟩,
                ⟨3, "LEA", "1", 1, 1, none, 3, none, 7, some 1⟩,
                ⟨4, "LEA", "1", 1, 1, none, 4, none, 7, some 1⟩,
                ⟨5, "LEA", "1", 1, 1, none, 5, none, 7, some 1⟩,
                ⟨6, "LEA", "1", 1, 1, none, 6, none, 7, some 1⟩] }

/-- The rendered page 1 of the C5 witness store. -/
def respC5 : BinderPageResponse :=
  ((getBinderPage sC5 7 1 1).toOption).getD ⟨0, "", 0, 0, [], 0, 0, false⟩

/-- Witness for C5 at the claim's fill-row-cap example: position 1 holds
six entries; exactly four expanded slots surface, the rest of the page is
empty padding with position 0. -/
theorem c5_fill_mode_page_witness :
    getBinderPage sC5 7 1 1 = .ok respC5 ∧
    countAtPos sC5 1 7 1 = 6 ∧
    (respC5.slots.filter (fun sl => !sl.is_empty)).length = 4 ∧
    (respC5.slots.filter (fun sl => sl.is_empty)).map
      (fun sl => sl.position) = [0, 0, 0, 0, 0] ∧
    (respC5.slots.length = slotsPerPage ⟨1, "Binder", 1, none, 0, 7, 3, true⟩ ∧
     respC5.total_pages = max 1 ((((expandedSlots sC5 1 7).length : Int) +
       slotsPerPage ⟨1, "Binder", 1, none, 0, 7, 3, true⟩ - 1).fdiv
         (slotsPerPage ⟨1, "Binder", 1, none, 0, 7, 3, true⟩)) ∧
     List.Pairwise (fun a b : BinderSlot => a.position ≤ b.position)
       (expandedSlots sC5 1 7) ∧
     (∀ p : Int, p ∈ distinctPositions sC5 1 7 →
       (expandedSlots sC5 1 7).filter (fun sl => sl.position == p) =
         ((entriesAtPos sC5 1 7 p).take 4).map
           (fun e => mkFillSlot sC5 p e)) ∧
     (∀ p : Int, ((expandedSlots sC5 1 7).filter
         (fun sl => sl.position == p)).length ≤ 4) ∧
     (∀ i : Nat, i < slotsPerPage ⟨1, "Binder", 1, none, 0, 7, 3, true⟩ →
       ((1 - 1) * slotsPerPage ⟨1, "Binder", 1, none, 0, 7, 3, true⟩ + i <
           (expandedSlots sC5 1 7).length →
         respC5.slots[i]? = (expandedSlots sC5 1 7)[(1 - 1) *
           slotsPerPage ⟨1, "Binder", 1, none, 0, 7, 3, true⟩ + i]?) ∧
       ((expandedSlots sC5 1 7).length ≤ (1 - 1) *
           slotsPerPage ⟨1, "Binder", 1, none, 0, 7, 3, true⟩ + i →
         respC5.slots[i]? = some (emptySlot 0)))) :=
  ⟨by rfl, by decide, by decide, by decide,
   c5_fill_mode_page sC5 7 1 1 ⟨1, "Binder", 1, none, 0, 7, 3, true⟩
     respC5 (by decide) (by decide) (by decide) (by rfl)⟩

/-- The consolidation SELECT of migration 005 (lines 91-104): entries of
one container INNER JOINed to their card (rows without a card are
dropped; the join key (set_code, number) is the cards primary key) —
each row keeps the entry and the joined card name. -/
def consRows (s : Store) (cid : Nat) : List (EntryRow × String) :=
  s.entries.filterMap (fun e =>
    if e.container_id == cid then
      (findCard s e.set_code e.card_number).map (fun c => (e, c.name))
    else none)

/-- The numeric tail of the consolidation ORDER BY key: the CASE on the
English language subquery (NULL compares false, so a missing 'english'
row yields 1), the coalesced release date, and the entry id. -/
def consKeyNat (s : Store) (r : EntryRow × String) : Nat × Nat × Nat :=
  ((match englishId s with
    | some eng => if r.1.language_id == eng then 0 else 1
    | none => 1), releaseKey s r.1, r.1.id)

/-- The full consolidation ORDER BY comparison: card name first (SQL
string order), then the numeric key. -/
def consLE (s : Store) (a b : EntryRow × String) : Bool :=
  strLtB a.2 b.2 || (a.2 == b.2 && keyLE (consKeyNat s a) (consKeyNat s b))

/-- The consolidation rows in ORDER BY order (migration 005 line 98-101). -/
def consSorted (s : Store) (cid : Nat) : List (EntryRow × String) :=
  List.insertionSort (fun a b => consLE s a b = true) (consRows s cid)

/-- The consolidation walk (migration 005 lines 107-121): a dict from card
name to position and an incrementing counter starting at 1; every row
emits an UPDATE (entry id, shared position of its name). -/
def consWalkAux (tbl : List (String × Nat)) (next : Nat) :
    List (EntryRow × String) → List (Nat × Nat)
  | [] => []
  | r :: rest =>
    match tbl.lookup r.2 with
    | some pos => (r.1.id, pos) :: consWalkAux tbl next rest
    | none => (r.1.id, next) :: consWalkAux (tbl ++ [(r.2, next)]) (next + 1) rest

/-- The full walk starting with an empty dict and position 1. -/
def consWalk (rows : List (EntryRow × String)) : List (Nat × Nat) :=
  consWalkAux [] 1 rows

/-- Apply the emitted UPDATE statements in order. -/
def applyConsUpdates (entries : List EntryRow) (ups : List (Nat × Nat)) :
    List EntryRow :=
  ups.foldl (fun es u =>
    updateEntry es u.1 (fun e => { e with position := some (u.2 : Int) })) entries

/-- Consolidation of one binder container (migration 005 lines 88-121);
the migration maps this over every container of the 'file' type. -/
def consolidateContainer (s : Store) (cid : Nat) : Store :=
  { s with entries := applyConsUpdates s.entries (consWalk (consSorted s cid)) }

/-- Number of distinct names that are new relative to the dict domain and
appear strictly before the first occurrence of the given name; mirrors
the walk's "newly-seen" counting declaratively. -/
def freshRank (tbl : List (String × Nat)) : List String → String → Nat
  | [], _ => 0
  | x :: rest, nm =>
    if x = nm then 0
    else if (tbl.lookup x).isSome then freshRank tbl rest nm
    else 1 + freshRank ((x, 0) :: tbl) rest nm

theorem freshRank_congr (t1 t2 : List (String × Nat))
    (h : ∀ nm, (t1.lookup nm).isSome = (t2.lookup nm).isSome) :
    ∀ (names : List String) (nm : String),
      freshRank t1 names nm = freshRank t2 names nm := by
  intro names
  induction names generalizing t1 t2 with
  | nil => intro nm; rfl
  | cons x rest ih =>
    intro nm
    by_cases hx : x = nm
    · simp [freshRank, hx]
    · simp only [freshRank, if_neg hx, h x]
      by_cases hs : (t2.lookup x).isSome = true
      · rw [if_pos hs, if_pos hs]
        exact ih t1 t2 h nm
      · rw [if_neg hs, if_neg hs]
        have hdom : ∀ nm2, ((((x, 0) : String × Nat) :: t1).lookup nm2).isSome =
            ((((x, 0) : String × Nat) :: t2).lookup nm2).isSome := by
          intro nm2
          simp only [List.lookup]
          cases hq : (nm2 == x) with
          | true => rfl
          | false => exact h nm2
        rw [ih _ _ hdom]

theorem lookup_append_isSome (t : List (String × Nat)) (x : String) (v : Nat)
    (nm : String) :
    ((t ++ [(x, v)]).lookup nm).isSome =
      (((((x, 0) : String × Nat) :: t).lookup nm).isSome) := by
  induction t with
  | nil =>
    simp only [List.nil_append, List.lookup]
    cases hq : (nm == x) <;> rfl
  | cons p rest ih =>
    by_cases hp : nm = p.1
    · have hb : (nm == p.1) = true := by simp [hp]
      simp only [List.cons_append, List.lookup, hb]
      cases hq : (nm == x) <;> rfl
    · have hb : (nm == p.1) = false := by simp [hp]
      simp only [List.cons_append, List.lookup, hb, List.append_eq] at ih ⊢
      exact ih

theorem lookup_append_left {t : List (String × Nat)} {nm : String} {k : Nat}
    (h : t.lookup nm = some k) (l : List (String × Nat)) :
    (t ++ l).lookup nm = some k := by
  induction t with
  | nil => simp [List.lookup] at h
  | cons p rest ih =>
    rw [List.cons_append, List.lookup]
    rw [List.lookup] at h
    cases hq : (nm == p.1) with
    | true => rw [hq] at h; exact h
    | false => rw [hq] at h; exact ih h

theorem lookup_append_none {t : List (String × Nat)} {nm x : String}
    (h : t.lookup nm = none) (hne : nm ≠ x) (v : Nat) :
    (t ++ [(x, v)]).lookup nm = none := by
  induction t with
  | nil =>
    have hb : (nm == x) = false := by simp [hne]
    simp [List.lookup, hb]
  | cons p rest ih =>
    rw [List.cons_append, List.lookup]
    rw [List.lookup] at h
    cases hq : (nm == p.1) with
    | true => rw [hq] at h; cases h
    | false => rw [hq] at h; exact ih h

theorem lookup_append_self {t : List (String × Nat)} {nm : String}
    (h : t.lookup nm = none) (v : Nat) :
    (t ++ [(nm, v)]).lookup nm = some v := by
  induction t with
  | nil => simp [List.lookup]
  | cons p rest ih =>
    rw [List.cons_append, List.lookup]
    rw [List.lookup] at h
    cases hq : (nm == p.1) with
    | true => rw [hq] at h; cases h
    | false => rw [hq] at h; exact ih h

theorem consWalkAux_ids (tbl : List (String × Nat)) (next : Nat)
    (rows : List (EntryRow × String)) :
    (consWalkAux tbl next rows).map (fun u => u.1) =
      rows.map (fun r => r.1.id) := by
  induction rows generalizing tbl next with
  | nil => rfl
  | cons r rest ih =>
    cases h : tbl.lookup r.2 with
    | some k => simp [consWalkAux, h, ih]
    | none => simp [consWalkAux, h, ih]

theorem consWalkAux_lookup (rows : List (EntryRow × String)) :
    ∀ (tbl : List (String × Nat)) (next : Nat),
    ((rows.map (fun r => r.1.id)).Nodup) →
    ∀ r ∈ rows,
      (consWalkAux tbl next rows).lookup r.1.id =
        (match tbl.lookup r.2 with
         | some k => some k
         | none =>
           some (next + freshRank tbl (rows.map (fun x => x.2)) r.2)) := by
  induction rows with
  | nil => intro tbl next _ r hr; cases hr
  | cons r0 rest ih =>
    intro tbl next hnd r hr
    have hnd0 : r0.1.id ∉ rest.map (fun x => x.1.id) :=
      (List.nodup_cons.mp (by simpa using hnd)).1
    have hndr : (rest.map (fun x => x.1.id)).Nodup :=
      (List.nodup_cons.mp (by simpa using hnd)).2
    rcases List.mem_cons.mp hr with rfl | hmem
    · cases h0 : tbl.lookup r.2 with
      | some k =>
        simp [consWalkAux, h0, List.lookup]
      | none =>
        simp [consWalkAux, h0, List.lookup, freshRank]
    · have hne : r.1.id ≠ r0.1.id := by
        intro he
        exact hnd0 (he ▸ List.mem_map_of_mem (fun x => x.1.id) hmem)
      have hneb : (r.1.id == r0.1.id) = false := by simp [hne]
      by_cases hname : r.2 = r0.2
      · -- the processed row bears the same name as this one
        cases h0 : tbl.lookup r0.2 with
        | some k =>
          have hih := ih tbl next hndr r hmem
          simp only [consWalkAux, h0, List.lookup, hneb] at hih ⊢
          rw [hih]
          have h2 : tbl.lookup r.2 = some k := by rw [hname]; exact h0
          rw [h2]
        | none =>
          have hih := ih (tbl ++ [(r0.2, next)]) (next + 1) hndr r hmem
          simp only [consWalkAux, h0, List.lookup, hneb] at hih ⊢
          rw [hih]
          have hx : (tbl ++ [(r0.2, next)]).lookup r.2 = some next := by
            rw [hname]
            exact lookup_append_self h0 next
          rw [hx, hname, h0]
          simp [List.map_cons, freshRank]
      · -- different names
        cases h0 : tbl.lookup r0.2 with
        | some k =>
          have hih := ih tbl next hndr r hmem
          simp only [consWalkAux, h0, List.lookup, hneb] at hih ⊢
          rw [hih]
          cases h1 : tbl.lookup r.2 with
          | some k2 => rfl
          | none =>
            have hname2 : ¬ r0.2 = r.2 := fun h => hname h.symm
            have hx : ((tbl.lookup r0.2).isSome) = true := by simp [h0]
            rw [List.map_cons]
            simp [freshRank, hname2, hx]
        | none =>
          have hih := ih (tbl ++ [(r0.2, next)]) (next + 1) hndr r hmem
          simp only [consWalkAux, h0, List.lookup, hneb] at hih ⊢
          rw [hih]
          cases h1 : tbl.lookup r.2 with
          | some k2 =>
            rw [lookup_append_left h1]
          | none =>
            have hname2 : ¬ r0.2 = r.2 := fun h => hname h.symm
            have hx : (tbl ++ [(r0.2, next)]).lookup r.2 = none :=
              lookup_append_none h1 hname next
            rw [hx]
            have hcg := freshRank_congr (tbl ++ [(r0.2, next)])
              (((r0.2, 0) : String × Nat) :: tbl)
              (lookup_append_isSome tbl r0.2 next)
              (rest.map (fun x => x.2)) r.2
            have hx0 : ((tbl.lookup r0.2).isSome) = false := by simp [h0]
            rw [List.map_cons]
            simp only [freshRank, if_neg hname2, hx0, Bool.false_eq_true,
              if_false, hcg]
            congr 1
            omega

theorem mem_applyConsUpdates_untouched (entries : List EntryRow)
    (ups : List (Nat × Nat)) (e : EntryRow) (he : e ∈ entries)
    (hid : ∀ u ∈ ups, u.1 ≠ e.id) :
    e ∈ applyConsUpdates entries ups := by
  induction ups generalizing entries with
  | nil => exact he
  | cons u rest ih =>
    apply ih
    · have hne : (e.id == u.1) = false := by
        simp only [beq_eq_false_iff_ne, ne_eq]
        exact fun h => hid u (List.mem_cons_self u rest) h.symm
      unfold updateEntry
      have hkeep : (if e.id == u.1
          then { e with position := some (u.2 : Int) } else e) = e := by
        rw [hne]; simp
      rw [← hkeep]
      exact List.mem_map_of_mem _ he
    · intro u2 hu2
      exact hid u2 (List.mem_cons_of_mem _ hu2)

theorem applyConsUpdates_hit (ups : List (Nat × Nat)) :
    ∀ (entries : List EntryRow) (e : EntryRow) (p : Nat),
    e ∈ entries → ups.lookup e.id = some p →
    ((ups.map (fun u => u.1)).Nodup) →
    { e with position := some (p : Int) } ∈ applyConsUpdates entries ups := by
  induction ups with
  | nil => intro entries e p _ hlu _; cases hlu
  | cons u rest ih =>
    intro entries e p he hlu hnd
    rw [List.map_cons] at hnd
    have hnd2 := List.nodup_cons.mp hnd
    rw [List.lookup] at hlu
    have hstep : applyConsUpdates entries (u :: rest) =
        applyConsUpdates (updateEntry entries u.1
          (fun e2 => { e2 with position := some (u.2 : Int) })) rest := rfl
    rw [hstep]
    cases hq : (e.id == u.1) with
    | true =>
      rw [hq] at hlu
      have hp : u.2 = p := by injection hlu
      have heq : e.id = u.1 := by simpa using hq
      apply mem_applyConsUpdates_untouched
      · unfold updateEntry
        have hf : (if e.id == u.1
            then { e with position := some (u.2 : Int) } else e) =
            { e with position := some (p : Int) } := by
          rw [hq, hp]; simp
        rw [← hf]
        exact List.mem_map_of_mem _ he
      · intro u2 hu2
        show u2.1 ≠ e.id
        intro hcontra
        apply hnd2.1
        have h4 := List.mem_map_of_mem (fun x : Nat × Nat => x.1) hu2
        simpa [hcontra, heq] using h4
    | false =>
      rw [hq] at hlu
      apply ih (updateEntry entries u.1 _) e p ?_ hlu hnd2.2
      unfold updateEntry
      have hkeep : (if e.id == u.1
          then { e with position := some (u.2 : Int) } else e) = e := by
        rw [hq]; simp
      rw [← hkeep]
      exact List.mem_map_of_mem _ he

/-- C6: for a binder container, consolidation sorts the card-joined
entries by the tuple (card name, is-not-English, release date with null
or missing set as the maximal sentinel, entry id), walks the sorted list
assigning position 1 + (number of distinct names newly seen before the
name's first occurrence) — fresh positions start at 1 and increment once
per newly-seen name — and writes that shared position to every entry
bearing the name. -/
theorem c6_consolidation
    (s : Store) (cid : Nat)
    (hnd : ((consSorted s cid).map (fun r => r.1.id)).Nodup)
    (r : EntryRow × String) (hr : r ∈ consSorted s cid)
    (hmem : r.1 ∈ s.entries) :
    (consWalk (consSorted s cid)).lookup r.1.id =
      some (1 + freshRank []
        ((consSorted s cid).map (fun x => x.2)) r.2) ∧
    (∀ r2 ∈ consSorted s cid, r2.2 = r.2 →
      (consWalk (consSorted s cid)).lookup r2.1.id =
        (consWalk (consSorted s cid)).lookup r.1.id) ∧
    { r.1 with position := (some
        ((1 + freshRank [] ((consSorted s cid).map (fun x => x.2)) r.2
          : Nat) : Int)) } ∈ (consolidateContainer s cid).entries := by
  have h1 := consWalkAux_lookup (consSorted s cid) [] 1 hnd r hr
  simp only [List.lookup] at h1
  refine ⟨h1, ?_, ?_⟩
  · intro r2 hr2 hname
    have h2 := consWalkAux_lookup (consSorted s cid) [] 1 hnd r2 hr2
    simp only [List.lookup] at h2
    rw [consWalk, h1, h2, hname]
  · have hndw : ((consWalk (consSorted s cid)).map (fun u => u.1)).Nodup := by
      rw [consWalk, consWalkAux_ids]
      exact hnd
    exact applyConsUpdates_hit (consWalk (consSorted s cid)) s.entries r.1 _
      hmem h1 hndw

/-- Store for the C6 witness: the spec's consolidation example
[(Bolt, EN, 1999), (Bolt, JP, 2005), (Shock, EN, 2002)] in one binder. -/
def sC6 : Store :=
  { cards := [⟨"AAA", "1", "Bolt", "C"⟩, ⟨"BBB", "1", "Bolt", "C"⟩,
              ⟨"CCC", "1", "Shock", "C"⟩],
    sets := [⟨"AAA", "A", some 19990101⟩, ⟨"BBB", "B", some 20050101⟩,
             ⟨"CCC", "C", some 20020101⟩],
    languages := [⟨1, "en", "English"⟩, ⟨2, "jp", "Japanese"⟩],
    finishes := [], containerTypes := [⟨1, "file"⟩],
    containers := [⟨1, "Binder", 1, none, 0, 7, 3, false⟩],
    entries := [⟨1, "AAA", "1", 1, 1, none, 1, none, 7, none⟩,
                ⟨2, "BBB", "1", 1, 1, none, 2, none, 7, none⟩,
                ⟨3, "CCC", "1", 1, 1, none, 1, none, 7, none⟩] }

/-- Witness for C6 at the spec's example: both Bolt rows receive position
1 and Shock receives position 2. -/
theorem c6_consolidation_witness :
    ((consolidateContainer sC6 1).entries.map
      (fun e => (e.id, e.position))) =
      [(1, some 1), (2, some 1), (3, some 2)] ∧
    (consWalk (consSorted sC6 1)).lookup 3 =
      some (1 + freshRank []
        ((consSorted sC6 1).map (fun x => x.2)) "Shock") :=
  ⟨by decide,
   (c6_consolidation sC6 1 (by decide)
     (⟨3, "CCC", "1", 1, 1, none, 1, none, 7, none⟩, "Shock")
     (by decide) (by decide)).1⟩

/-- Python truthiness of an optional integer (None and 0 are falsy). -/
def pyTruthyN (o : Option Nat) : Bool := o.getD 0 != 0

/-- Request body of POST /containers/ (the description, binder_columns and
binder_fill_row inputs are ignored by the handler, which stores the model
defaults 3/false; the description column plays no role in any claim and
is omitted from ContainerRow). -/
structure ContainerCreateD where
  name : String
  type_id : Nat
  parent_id : Option Nat
deriving DecidableEq, Repr

/-- Request body of PUT /containers/{container_id}. -/
structure ContainerUpdateD where
  name : Option String
  type_id : Option Nat
  parent_id : Option Nat
  binder_columns : Option Nat
  binder_fill_row : Option Bool
deriving DecidableEq, Repr

/-- Next autoincrement id for `containers`. -/
def freshContainerId (s : Store) : Nat :=
  (s.containers.map (fun c => c.id)).foldr max 0 + 1

/-- POST /containers/ (`create_container`, containers.py lines 102-139):
depth 0 for a falsy parent_id, else parent.depth + 1 with the depth > 10
guard; parent_id is stored as given in both cases. -/
def createContainer (s : Store) (uid : Nat) (d : ContainerCreateD) :
    Except ApiError (Store × ContainerRow) :=
  match findType s d.type_id with
  | none => .error (.badRequest "Invalid container type")
  | some _ =>
    if pyTruthyN d.parent_id then
      match findContainerOwned s (d.parent_id.getD 0) uid with
      | none => .error (.badRequest "Parent container not found")
      | some parent =>
        if parent.depth + 1 > 10 then
          .error (.badRequest "Maximum container depth (10) exceeded")
        else
          let c : ContainerRow := ⟨freshContainerId s, d.name, d.type_id,
            d.parent_id, parent.depth + 1, uid, 3, false⟩
          .ok ({ s with containers := s.containers ++ [c] }, c)
    else
      let c : ContainerRow := ⟨freshContainerId s, d.name, d.type_id,
        d.parent_id, 0, uid, 3, false⟩
      .ok ({ s with containers := s.containers ++ [c] }, c)

/-- PUT /containers/{container_id} (`update_container`, containers.py
lines 142-196).  The reparent check rejects only direct self-parenting
and a new depth (parent's stored depth + 1) over 10. -/
def updateContainer (s : Store) (uid cid : Nat) (d : ContainerUpdateD) :
    Except ApiError (Store × ContainerRow) :=
  match findContainerOwned s cid uid with
  | none => .error (.notFound "Container not found")
  | some container =>
    let afterType : Except ApiError ContainerRow :=
      match d.type_id with
      | none => .ok container
      | some tid =>
        if (findType s tid).isNone then
          .error (.badRequest "Invalid container type")
        else .ok { container with type_id := tid }
    match afterType with
    | .error e => .error e
    | .ok c1 =>
      let afterParent : Except ApiError ContainerRow :=
        match d.parent_id with
        | none => .ok c1
        | some pid =>
          if pid == cid then
            .error (.badRequest "Container cannot be its own parent")
          else
            match findContainerOwned s pid uid with
            | none => .error (.badRequest "Parent container not found")
            | some parent =>
              if parent.depth + 1 > 10 then
                .error (.badRequest "Maximum container depth (10) exceeded")
              else .ok { c1 with parent_id := some pid,
                                 depth := parent.depth + 1 }
      match afterParent with
      | .error e => .error e
      | .ok c2 =>
        let c3 := match d.name with
          | some nm => { c2 with name := nm }
          | none => c2
        let c4 := match d.binder_columns with
          | some bc => { c3 with binder_columns := bc }
          | none => c3
        let c5 := match d.binder_fill_row with
          | some fr => { c4 with binder_fill_row := fr }
          | none => c4
        .ok ({ s with containers := (s.containers.map
                (fun c => if c.id == cid then c5 else c)) }, c5)

/-- DELETE /containers/{container_id} (`delete_container`, containers.py
lines 199-224): rejected when any container references it as parent;
deletion cascades to the container's collection entries. -/
def deleteContainer (s : Store) (uid cid : Nat) : Except ApiError Store :=
  match findContainerOwned s cid uid with
  | none => .error (.notFound "Container not found")
  | some _ =>
    match s.containers.find? (fun c => c.parent_id == some cid) with
    | some _ =>
      .error (.badRequest
        "Cannot delete container with children. Delete children first.")
    | none =>
      .ok { s with
        containers := s.containers.filter (fun c => c.id != cid),
        entries := s.entries.filter (fun e => e.container_id != cid) }

/-- States reachable from a container-less store by succeeding create and
delete operations. -/
inductive ReachC : Store → Prop
  | base (s : Store) : s.containers = [] → ReachC s
  | create (s : Store) (uid : Nat) (d : ContainerCreateD) (s2 : Store)
      (c : ContainerRow) : ReachC s →
      createContainer s uid d = .ok (s2, c) → ReachC s2
  | del (s : Store) (uid cid : Nat) (s2 : Store) : ReachC s →
      deleteContainer s uid cid = .ok s2 → ReachC s2

/-- The strict-forest invariant on the container graph: unique ids, depth
at most 10, parent links only to strictly smaller ids (hence no cycles),
and for a truthy parent link the parent row exists with depth one less;
a falsy parent (None, or the sentinel 0 the handler stores as-is) means
depth 0. -/
def TreeInv (s : Store) : Prop :=
  (s.containers.map (fun c => c.id)).Nodup ∧
  ∀ c ∈ s.containers,
    1 ≤ c.id ∧
    c.depth ≤ 10 ∧
    (∀ p, c.parent_id = some p → p < c.id) ∧
    (pyTruthyN c.parent_id = true →
      ∃ par ∈ s.containers, c.parent_id = some par.id ∧
        c.depth = par.depth + 1) ∧
    (pyTruthyN c.parent_id = false → c.depth = 0)

theorem le_foldr_max (l : List Nat) (a : Nat) (h : a ∈ l) :
    a ≤ l.foldr max 0 := by
  induction l with
  | nil => cases h
  | cons x xs ih =>
    rcases List.mem_cons.mp h with rfl | hmem
    · exact Nat.le_max_left _ _
    · exact le_trans (ih hmem) (Nat.le_max_right _ _)

theorem pyTruthyN_true {o : Option Nat} (h : pyTruthyN o = true) :
    o = some (o.getD 0) ∧ o.getD 0 ≠ 0 := by
  cases o with
  | none => simp [pyTruthyN] at h
  | some v => simpa [pyTruthyN] using h

theorem nodup_append_singleton {l : List Nat} {a : Nat} (h : l.Nodup)
    (ha : a ∉ l) : (l ++ [a]).Nodup := by
  simp [List.nodup_append, h, ha]

/-- C10 (amended): in every state reachable by succeeding container create
and delete operations, the container graph is a strict forest: unique
ids, depth at most 10, every parent link points to a strictly smaller id
(so in particular no two containers are mutual parents and no cycle
exists), a truthy parent link points to an existing row whose stored
depth is one less, and a falsy parent means depth 0.  (Reparenting via
update checks only direct self-parenting and the depth bound; it can
create a cycle — see the counterexample — so update is not included.) -/
theorem c10_tree_amended (s : Store) (h : ReachC s) :
    TreeInv s ∧
    ∀ c1 ∈ s.containers, ∀ c2 ∈ s.containers,
      c1.parent_id = some c2.id → c2.parent_id = some c1.id → False := by
  have hinv : TreeInv s := by
    induction h with
    | base s hs =>
      rw [TreeInv, hs]
      simp
    | create s uid d s2 c hr hop ih =>
      obtain ⟨ihnd, ihmem⟩ := ih
      cases hty : findType s d.type_id with
      | none => simp [createContainer, hty] at hop
      | some ty =>
        by_cases htr : pyTruthyN d.parent_id = true
        · obtain ⟨hpe, hpn⟩ := pyTruthyN_true htr
          cases hpar : findContainerOwned s (d.parent_id.getD 0) uid with
          | none => simp [createContainer, hty, htr, hpar] at hop
          | some parent =>
            by_cases hdep : parent.depth + 1 > 10
            · simp [createContainer, hty, htr, hpar, hdep] at hop
            · simp only [createContainer, hty, htr, hpar, hdep, if_true,
                if_false, Except.ok.injEq, Prod.mk.injEq] at hop
              obtain ⟨hs2, hc⟩ := hop
              subst hs2
              have hparmem : parent ∈ s.containers ∧
                  parent.id = d.parent_id.getD 0 := by
                have h1 := List.mem_of_find?_eq_some hpar
                have h2 := List.find?_some hpar
                simp only [Bool.and_eq_true, beq_iff_eq] at h2
                exact ⟨h1, h2.1⟩
              have hfr : ∀ x ∈ s.containers,
                  x.id ≤ (s.containers.map (fun c => c.id)).foldr max 0 :=
                fun x hx => le_foldr_max _ _
                  (List.mem_map_of_mem (fun c => c.id) hx)
              constructor
              · rw [List.map_append]
                apply nodup_append_singleton ihnd
                intro hmem
                rw [List.mem_map] at hmem
                obtain ⟨x, hx, hxid⟩ := hmem
                have := hfr x hx
                rw [hxid] at this
                simp [freshContainerId] at this
              · intro x hx
                rcases List.mem_append.mp hx with hold | hnew
                · obtain ⟨a1, a2, a3, a4, a5⟩ := ihmem x hold
                  refine ⟨a1, a2, a3, ?_, a5⟩
                  intro ht
                  obtain ⟨par, hpmem, hpid, hpd⟩ := a4 ht
                  exact ⟨par, List.mem_append_left _ hpmem, hpid, hpd⟩
                · rw [List.mem_singleton] at hnew
                  subst hnew
                  refine ⟨by simp [freshContainerId],
                    by show parent.depth + 1 ≤ 10; omega, ?_, ?_, ?_⟩
                  · intro p hp
                    simp only at hp
                    rw [hpe] at hp
                    have hple : p ≤ (s.containers.map
                        (fun c => c.id)).foldr max 0 := by
                      have := hfr parent hparmem.1
                      rw [hparmem.2] at this
                      injection hp with hp2
                      omega
                    simp only [freshContainerId]
                    omega
                  · intro _
                    refine ⟨parent, List.mem_append_left _ hparmem.1, ?_, rfl⟩
                    simp only
                    rw [hpe, hparmem.2]
                  · intro hfalse
                    simp only at hfalse
                    rw [htr] at hfalse
                    cases hfalse
        · rw [Bool.not_eq_true] at htr
          simp only [createContainer, hty, htr, Bool.false_eq_true,
            if_false, Except.ok.injEq, Prod.mk.injEq] at hop
          obtain ⟨hs2, hc⟩ := hop
          subst hs2
          have hfr : ∀ x ∈ s.containers,
              x.id ≤ (s.containers.map (fun c => c.id)).foldr max 0 :=
            fun x hx => le_foldr_max _ _
              (List.mem_map_of_mem (fun c => c.id) hx)
          constructor
          · rw [List.map_append]
            apply nodup_append_singleton ihnd
            intro hmem
            rw [List.mem_map] at hmem
            obtain ⟨x, hx, hxid⟩ := hmem
            have := hfr x hx
            rw [hxid] at this
            simp [freshContainerId] at this
          · intro x hx
            rcases List.mem_append.mp hx with hold | hnew
            · obtain ⟨a1, a2, a3, a4, a5⟩ := ihmem x hold
              refine ⟨a1, a2, a3, ?_, a5⟩
              intro ht
              obtain ⟨par, hpmem, hpid, hpd⟩ := a4 ht
              exact ⟨par, List.mem_append_left _ hpmem, hpid, hpd⟩
            · rw [List.mem_singleton] at hnew
              subst hnew
              refine ⟨by simp [freshContainerId],
                by show (0 : Nat) ≤ 10; decide, ?_, ?_, ?_⟩
              · intro p hp
                simp only at hp
                have hp0 : p = 0 := by
                  cases hde : d.parent_id with
                  | none => rw [hde] at hp; cases hp
                  | some v =>
                    rw [hde] at hp
                    injection hp with hp2
                    rw [hde] at htr
                    simp [pyTruthyN] at htr
                    omega
                simp [hp0, freshContainerId]
              · intro ht
                simp only at ht
                rw [htr] at ht
                cases ht
              · intro _
                rfl
    | del s uid cid s2 hr hop ih =>
      obtain ⟨ihnd, ihmem⟩ := ih
      cases hfind : findContainerOwned s cid uid with
      | none => simp [deleteContainer, hfind] at hop
      | some cont =>
        cases hchild : s.containers.find? (fun c => c.parent_id == some cid) with
        | some ch => simp [deleteContainer, hfind, hchild] at hop
        | none =>
          simp only [deleteContainer, hfind, hchild, Except.ok.injEq] at hop
          subst hop
          constructor
          · exact ihnd.sublist
              ((List.filter_sublist s.containers).map (fun c => c.id))
          · intro x hx
            have hxold : x ∈ s.containers := List.mem_of_mem_filter hx
            obtain ⟨a1, a2, a3, a4, a5⟩ := ihmem x hxold
            refine ⟨a1, a2, a3, ?_, a5⟩
            intro ht
            obtain ⟨par, hpmem, hpid, hpd⟩ := a4 ht
            refine ⟨par, ?_, hpid, hpd⟩
            rw [List.mem_filter]
            refine ⟨hpmem, ?_⟩
            simp only [bne_iff_ne, ne_eq]
            intro hpar_cid
            have hnochild := List.find?_eq_none.mp hchild x hxold
            rw [hpar_cid] at hpid
            simp [hpid] at hnochild
  refine ⟨hinv, ?_⟩
  intro c1 h1 c2 h2 hp1 hp2
  have a1 := (hinv.2 c1 h1).2.2.1 c2.id hp1
  have a2 := (hinv.2 c2 h2).2.2.1 c1.id hp2
  omega

/-- Empty store with a 'box' container type, for the C10 counterexample. -/
def sT0 : Store :=
  { cards := [], sets := [], languages := [], finishes := [],
    containerTypes := [⟨2, "box"⟩], containers := [], entries := [] }

/-- Store after creating root container A (id 1). -/
def sT1 : Store :=
  { sT0 with containers := [⟨1, "A", 2, none, 0, 7, 3, false⟩] }

/-- Store after creating container B (id 2) under A. -/
def sT2 : Store :=
  { sT0 with containers := [⟨1, "A", 2, none, 0, 7, 3, false⟩,
                            ⟨2, "B", 2, some 1, 1, 7, 3, false⟩] }

/-- Store after the accepted reparent of A under B: a 2-cycle. -/
def sT3 : Store :=
  { sT0 with containers := [⟨1, "A", 2, some 2, 2, 7, 3, false⟩,
                            ⟨2, "B", 2, some 1, 1, 7, 3, false⟩] }

/-- Counterexample to C10 as stated: after creating A and B (B a child of
A), the reparent of A under its own child B succeeds — the handler only
rejects direct self-parenting and depth > 10 — and leaves a cycle
(A's parent is B and B's parent is A) in a state reached by succeeding
create/update operations. -/
theorem c10_counterexample :
    createContainer sT0 7 ⟨"A", 2, none⟩ =
      .ok (sT1, ⟨1, "A", 2, none, 0, 7, 3, false⟩) ∧
    createContainer sT1 7 ⟨"B", 2, some 1⟩ =
      .ok (sT2, ⟨2, "B", 2, some 1, 1, 7, 3, false⟩) ∧
    updateContainer sT2 7 1 ⟨none, none, some 2, none, none⟩ =
      .ok (sT3, ⟨1, "A", 2, some 2, 2, 7, 3, false⟩) ∧
    (findContainerById sT3 1).map (fun c => c.parent_id) = some (some 2) ∧
    (findContainerById sT3 2).map (fun c => c.parent_id) = some (some 1) :=
  ⟨by rfl, by rfl, by rfl, by rfl, by rfl⟩

/-- Witness for the amended C10 at a concrete reachable state. -/
theorem c10_tree_amended_witness :
    TreeInv sT2 ∧
    ∀ c1 ∈ sT2.containers, ∀ c2 ∈ sT2.containers,
      c1.parent_id = some c2.id → c2.parent_id = some c1.id → False :=
  c10_tree_amended sT2
    (ReachC.create sT1 7 ⟨"B", 2, some 1⟩ sT2
      ⟨2, "B", 2, some 1, 1, 7, 3, false⟩
      (ReachC.create sT0 7 ⟨"A", 2, none⟩ sT1
        ⟨1, "A", 2, none, 0, 7, 3, false⟩
        (ReachC.base sT0 rfl) (by rfl)) (by rfl))

/-- Inductive invariant for the position system: the catalog has unique
card keys, containers have unique ids, every entry's card exists, every
entry sits in a container of its own user, and two positioned entries of
one (container, user) have equal card names exactly when they have equal
positions. -/
def EntriesInv (s : Store) : Prop :=
  (s.cards.map (fun c => (c.set_code, c.number))).Nodup ∧
  (s.containers.map (fun c => c.id)).Nodup ∧
  (∀ e ∈ s.entries, (entryName s e).isSome = true) ∧
  (∀ e ∈ s.entries, ∃ c ∈ s.containers,
    c.id = e.container_id ∧ c.user_id = e.user_id) ∧
  (∀ e1 ∈ s.entries, ∀ e2 ∈ s.entries,
    e1.container_id = e2.container_id → e1.user_id = e2.user_id →
    ∀ p1 p2 : Int, e1.position = some p1 → e2.position = some p2 →
      (entryName s e1 = entryName s e2 ↔ p1 = p2))

/-- States reachable from an entry-less store by the entry-creating
operations with no caller-supplied explicit position: direct add, CSV
import, quantity move. -/
inductive ReachE : Store → Prop
  | base (s : Store) : s.entries = [] →
      (s.cards.map (fun c => (c.set_code, c.number))).Nodup →
      (s.containers.map (fun c => c.id)).Nodup → ReachE s
  | add (s : Store) (uid : Nat) (d : EntryCreate) (s2 : Store)
      (r : EntryResponse) : ReachE s → d.position = none →
      addToCollection s uid d = .ok (s2, r) → ReachE s2
  | imp (s : Store) (uid cid : Nat) (rows : List ImportRow) (s2 : Store) :
      ReachE s → importCollection s uid cid rows = .ok s2 → ReachE s2
  | move (s : Store) (uid eid : Nat) (d : MoveRequest) (s2 : Store)
      (tid : Nat) : ReachE s → moveEntry s uid eid d = .ok (s2, tid) →
      ReachE s2

theorem entryName_entries (s : Store) (l : List EntryRow) (e : EntryRow) :
    entryName { s with entries := l } e = entryName s e := rfl

theorem findCard_self {s : Store}
    (hnd : (s.cards.map (fun c => (c.set_code, c.number))).Nodup)
    {c : CardRow} (hc : c ∈ s.cards) :
    findCard s c.set_code c.number = some c := by
  cases hfind : findCard s c.set_code c.number with
  | none =>
    rw [findCard, List.find?_eq_none] at hfind
    exact absurd (by simp : (c.set_code == c.set_code &&
      c.number == c.number) = true) (hfind c hc)
  | some x =>
    have hxmem := List.mem_of_find?_eq_some hfind
    have hxpred := List.find?_some hfind
    simp only [Bool.and_eq_true, beq_iff_eq] at hxpred
    have hkey : (fun c : CardRow => (c.set_code, c.number)) x =
        (fun c : CardRow => (c.set_code, c.number)) c := by
      simp [hxpred.1, hxpred.2]
    have := List.inj_on_of_nodup_map hnd hxmem hc hkey
    rw [this]

/-- Preservation of the invariant under entry edits that keep the fields
the invariant reads (container, user, position, card key). -/
theorem entriesInv_map (s : Store) (g : EntryRow → EntryRow)
    (hg : ∀ e, (g e).container_id = e.container_id ∧
      (g e).user_id = e.user_id ∧ (g e).position = e.position ∧
      (g e).set_code = e.set_code ∧ (g e).card_number = e.card_number)
    (hInv : EntriesInv s) :
    EntriesInv { s with entries := s.entries.map g } := by
  obtain ⟨h1, h2, h3, h4, h5⟩ := hInv
  have hname : ∀ e : EntryRow,
      entryName s (g e) = entryName s e := by
    intro e
    rw [entryName, entryName, (hg e).2.2.2.1, (hg e).2.2.2.2]
  refine ⟨h1, h2, ?_, ?_, ?_⟩
  · intro e he
    rw [List.mem_map] at he
    obtain ⟨e0, he0, rfl⟩ := he
    simp only [entryName_entries, hname]
    exact h3 e0 he0
  · intro e he
    rw [List.mem_map] at he
    obtain ⟨e0, he0, rfl⟩ := he
    rw [(hg e0).1, (hg e0).2.1]
    exact h4 e0 he0
  · intro e1 he1 e2 he2 hc hu p1 p2 hp1 hp2
    rw [List.mem_map] at he1 he2
    obtain ⟨f1, hf1, rfl⟩ := he1
    obtain ⟨f2, hf2, rfl⟩ := he2
    rw [(hg f1).1, (hg f2).1] at hc
    rw [(hg f1).2.1, (hg f2).2.1] at hu
    rw [(hg f1).2.2.1] at hp1
    rw [(hg f2).2.2.1] at hp2
    simp only [entryName_entries, hname]
    exact h5 f1 hf1 f2 hf2 hc hu p1 p2 hp1 hp2

/-- Preservation of the invariant under entry deletion. -/
theorem entriesInv_filter (s : Store) (q : EntryRow → Bool)
    (hInv : EntriesInv s) :
    EntriesInv { s with entries := s.entries.filter q } := by
  obtain ⟨h1, h2, h3, h4, h5⟩ := hInv
  refine ⟨h1, h2, ?_, ?_, ?_⟩
  · intro e he
    simp only [entryName_entries]
    exact h3 e (List.mem_of_mem_filter he)
  · intro e he
    exact h4 e (List.mem_of_mem_filter he)
  · intro e1 he1 e2 he2 hc hu p1 p2 hp1 hp2
    simp only [entryName_entries]
    exact h5 e1 (List.mem_of_mem_filter he1) e2 (List.mem_of_mem_filter he2)
      hc hu p1 p2 hp1 hp2

theorem insert_key_step (s : Store)
    (h5 : ∀ e1 ∈ s.entries, ∀ e2 ∈ s.entries,
      e1.container_id = e2.container_id → e1.user_id = e2.user_id →
      ∀ p1 p2 : Int, e1.position = some p1 → e2.position = some p2 →
        (entryName s e1 = entryName s e2 ↔ p1 = p2))
    (e : EntryRow) (nm : String)
    (hnm : entryName s e = some nm)
    (hap : e.position = autoPosition s e.container_id e.user_id nm)
    (e1 : EntryRow) (he1 : e1 ∈ s.entries)
    (hc : e1.container_id = e.container_id)
    (hu : e1.user_id = e.user_id)
    (p1 p2 : Int) (hp1 : e1.position = some p1) (hp2 : e.position = some p2) :
    (entryName s e1 = entryName s e ↔ p1 = p2) := by
  cases hfind : s.entries.find?
      (sameNamePosB s e.container_id e.user_id nm) with
  | some e0 =>
    have he0mem := List.mem_of_find?_eq_some hfind
    have he0pred := List.find?_some hfind
    simp only [sameNamePosB, Bool.and_eq_true, beq_iff_eq] at he0pred
    obtain ⟨⟨⟨hc0, hu0⟩, hs0⟩, hn0⟩ := he0pred
    have he0p : e0.position = some p2 := by
      rw [autoPosition, hfind] at hap
      exact hap.symm.trans hp2
    have hkey := h5 e1 he1 e0 he0mem (by rw [hc, hc0]) (by rw [hu, hu0])
      p1 p2 hp1 he0p
    rw [hn0, ← hnm] at hkey
    exact hkey
  | none =>
    rw [autoPosition, hfind] at hap
    have hp2v : p2 = (maxPositionQ s e.container_id e.user_id).getD 0 + 1 := by
      have h := hap.symm.trans hp2
      exact (Option.some.inj h).symm
    have hmem1 : p1 ∈ (containerEntries s e.container_id e.user_id).filterMap
        (fun x => x.position) := by
      rw [List.mem_filterMap]
      refine ⟨e1, ?_, hp1⟩
      rw [containerEntries, List.mem_filter]
      exact ⟨he1, by simp [hc, hu]⟩
    have hmax : ∃ m, maxPositionQ s e.container_id e.user_id = some m ∧
        p1 ≤ m := by
      cases hm : maxPositionQ s e.container_id e.user_id with
      | none =>
        rw [maxPositionQ, List.max?_eq_none_iff] at hm
        rw [hm] at hmem1
        cases hmem1
      | some m => exact ⟨m, rfl, int_max?_mem_le hm hmem1⟩
    obtain ⟨m, hm, hle⟩ := hmax
    constructor
    · intro hEq
      exfalso
      have hpred : sameNamePosB s e.container_id e.user_id nm e1 = true := by
        simp only [sameNamePosB, Bool.and_eq_true, beq_iff_eq]
        exact ⟨⟨⟨hc, hu⟩, by simp [hp1]⟩, by rw [hEq, hnm]⟩
      exact absurd hpred (by simpa using List.find?_eq_none.mp hfind e1 he1)
    · intro hp12
      exfalso
      rw [hm] at hp2v
      simp only [Option.getD] at hp2v
      omega

/-- Preservation of the invariant when a new entry is appended whose
position is either NULL or the value of the automatic position policy for
its own card name. -/
theorem entriesInv_insert (s : Store) (e : EntryRow)
    (hInv : EntriesInv s)
    (hname : (entryName s e).isSome = true)
    (hown : ∃ c ∈ s.containers, c.id = e.container_id ∧
      c.user_id = e.user_id)
    (hpos : e.position = none ∨
      ∃ nm, entryName s e = some nm ∧
        e.position = autoPosition s e.container_id e.user_id nm) :
    EntriesInv { s with entries := s.entries ++ [e] } := by
  obtain ⟨h1, h2, h3, h4, h5⟩ := hInv
  refine ⟨h1, h2, ?_, ?_, ?_⟩
  · intro x hx
    simp only [entryName_entries]
    rcases List.mem_append.mp hx with hold | hnew
    · exact h3 x hold
    · rw [List.mem_singleton] at hnew
      subst hnew
      exact hname
  · intro x hx
    rcases List.mem_append.mp hx with hold | hnew
    · exact h4 x hold
    · rw [List.mem_singleton] at hnew
      subst hnew
      exact hown
  · intro e1 he1 e2 he2 hc hu p1 p2 hp1 hp2
    simp only [entryName_entries]
    have hposv : ∀ p : Int, e.position = some p →
        ∃ nm, entryName s e = some nm ∧
          e.position = autoPosition s e.container_id e.user_id nm := by
      intro p hp
      rcases hpos with hn | hx
      · rw [hn] at hp; cases hp
      · exact hx
    rcases List.mem_append.mp he1 with h1m | h1new
    · rcases List.mem_append.mp he2 with h2m | h2new
      · exact h5 e1 h1m e2 h2m hc hu p1 p2 hp1 hp2
      · rw [List.mem_singleton] at h2new
        subst h2new
        obtain ⟨nm, hnm, hap⟩ := hposv p2 hp2
        exact insert_key_step s h5 e2 nm hnm hap e1 h1m hc hu p1 p2 hp1 hp2
    · rw [List.mem_singleton] at h1new
      subst h1new
      rcases List.mem_append.mp he2 with h2m | h2new
      · obtain ⟨nm, hnm, hap⟩ := hposv p1 hp1
        have hkey := insert_key_step s h5 e1 nm hnm hap e2 h2m hc.symm
          hu.symm p2 p1 hp2 hp1
        exact ⟨fun a => (hkey.mp a.symm).symm, fun a => (hkey.mpr a.symm).symm⟩
      · rw [List.mem_singleton] at h2new
        subst h2new
        rw [hp1] at hp2
        injection hp2 with hp
        simp [hp]

theorem addToCollection_inv (s : Store) (uid : Nat) (d : EntryCreate)
    (s2 : Store) (r : EntryResponse)
    (hpos : d.position = none)
    (hInv : EntriesInv s)
    (hrun : addToCollection s uid d = .ok (s2, r)) :
    EntriesInv s2 := by
  cases hcard : findCard s (upStr d.set_code) d.card_number with
  | none => simp [addToCollection, hcard] at hrun
  | some card =>
  cases hcont : findContainerOwned s d.container_id uid with
  | none => simp [addToCollection, hcard, hcont] at hrun
  | some container =>
  cases hlang : findLanguage s d.language_id with
  | none => simp [addToCollection, hcard, hcont, hlang] at hrun
  | some lang =>
  simp only [addToCollection, hcard, hcont, hlang] at hrun
  by_cases hfin : (d.finish_id.isSome &&
      (findFinish s (d.finish_id.getD 0)).isNone) = true
  · rw [if_pos hfin] at hrun
    exact absurd hrun (by simp)
  · rw [if_neg hfin] at hrun
    cases hex : exactVariantQ s uid (upStr d.set_code) d.card_number
        d.container_id d.finish_id d.language_id with
    | some existing =>
      simp only [hex, Except.ok.injEq, Prod.mk.injEq] at hrun
      obtain ⟨hs2, _⟩ := hrun
      rw [← hs2]
      exact entriesInv_map s _ (fun e => by
        by_cases hid : (e.id == existing.id) = true <;> simp [hid]) hInv
    | none =>
      simp only [hex, Except.ok.injEq, Prod.mk.injEq] at hrun
      obtain ⟨hs2, _⟩ := hrun
      rw [← hs2]
      apply entriesInv_insert s _ hInv
      · show (entryName s _).isSome = true
        have : entryName s
            { id := freshEntryId s, set_code := upStr d.set_code,
              card_number := d.card_number, container_id := d.container_id,
              quantity := d.quantity, finish_id := d.finish_id,
              language_id := d.language_id, comments := d.comments,
              user_id := uid, position :=
                if containerIsFile s container && d.position == none then
                  autoPosition s d.container_id uid card.name
                else d.position } = some card.name := by
          rw [entryName]
          show (findCard s (upStr d.set_code) d.card_number).map _ = _
          rw [hcard]
          rfl
        rw [this]
        rfl
      · have hm := List.mem_of_find?_eq_some hcont
        have hpred := List.find?_some hcont
        simp only [Bool.and_eq_true, beq_iff_eq] at hpred
        exact ⟨container, hm, hpred.1, hpred.2⟩
      · by_cases hfile : containerIsFile s container = true
        · refine Or.inr ⟨card.name, ?_, ?_⟩
          · show (findCard s (upStr d.set_code) d.card_number).map _ = _
            rw [hcard]
            rfl
          · show (if containerIsFile s container && d.position == none then
                autoPosition s d.container_id uid card.name
              else d.position) = _
            rw [hfile, hpos]
            rfl
        · refine Or.inl ?_
          rw [Bool.not_eq_true] at hfile
          show (if containerIsFile s container && d.position == none then
              autoPosition s d.container_id uid card.name
            else d.position) = none
          rw [hfile, hpos]
          rfl

theorem findCardByNameSet_mem {s : Store} {nm : String} {code : Option String}
    {card : CardRow} (h : findCardByNameSet s nm code = some card) :
    card ∈ s.cards := by
  unfold findCardByNameSet at h
  cases code with
  | none => exact List.mem_of_find?_eq_some h
  | some sc => exact List.mem_of_find?_eq_some h

theorem resolveImportCard_mem {s : Store} {row : ImportRow} {card : CardRow}
    (h : resolveImportCard s row = some card) : card ∈ s.cards := by
  cases hnum : row.card_number with
  | some num =>
    simp only [resolveImportCard, hnum] at h
    by_cases hcond : (row.set_code != "" && num != "") = true
    · rw [if_pos hcond] at h
      cases hk : s.cards.find? (fun c =>
          upStr c.set_code == upStr row.set_code && c.number == num) with
      | some c =>
        rw [hk] at h
        injection h with h2
        subst h2
        exact List.mem_of_find?_eq_some hk
      | none =>
        rw [hk] at h
        cases hsc : (if row.set_code != "" then
            findCardByNameSet s row.card_name (some row.set_code)
          else none) with
        | some c =>
          rw [hsc] at h
          injection h with h2
          subst h2
          by_cases hne : (row.set_code != "") = true
          · rw [if_pos hne] at hsc
            exact findCardByNameSet_mem hsc
          · rw [if_neg hne] at hsc
            cases hsc
        | none =>
          rw [hsc] at h
          exact findCardByNameSet_mem h
    · rw [if_neg hcond] at h
      cases hsc : (if row.set_code != "" then
          findCardByNameSet s row.card_name (some row.set_code)
        else none) with
      | some c =>
        rw [hsc] at h
        injection h with h2
        subst h2
        by_cases hne : (row.set_code != "") = true
        · rw [if_pos hne] at hsc
          exact findCardByNameSet_mem hsc
        · rw [if_neg hne] at hsc
          cases hsc
      | none =>
        rw [hsc] at h
        exact findCardByNameSet_mem h
  | none =>
    simp only [resolveImportCard, hnum] at h
    cases hsc : (if row.set_code != "" then
        findCardByNameSet s row.card_name (some row.set_code)
      else none) with
    | some c =>
      rw [hsc] at h
      injection h with h2
      subst h2
      by_cases hne : (row.set_code != "") = true
      · rw [if_pos hne] at hsc
        exact findCardByNameSet_mem hsc
      · rw [if_neg hne] at hsc
        cases hsc
    | none =>
      rw [hsc] at h
      exact findCardByNameSet_mem h

theorem importRowStep_inv (s : Store) (uid cid : Nat) (b : Bool)
    (row : ImportRow) (hInv : EntriesInv s)
    (hown : ∃ c ∈ s.containers, c.id = cid ∧ c.user_id = uid) :
    EntriesInv (importRowStep s uid cid b row) ∧
    (importRowStep s uid cid b row).containers = s.containers := by
  cases hres : resolveImportCard s row with
  | none =>
    simp only [importRowStep, hres]
    exact ⟨hInv, trivial⟩
  | some card =>
    cases hex : exactVariantQ s uid card.set_code card.number cid
        row.finish_id row.language_id with
    | some existing =>
      simp only [importRowStep, hres, hex]
      refine ⟨?_, trivial⟩
      exact entriesInv_map s _ (fun e => by
        by_cases hid : (e.id == existing.id) = true <;> simp [hid]) hInv
    | none =>
      simp only [importRowStep, hres, hex]
      refine ⟨?_, trivial⟩
      have hmem := resolveImportCard_mem hres
      have hfc := findCard_self hInv.1 hmem
      have hent : entryName s
          { id := freshEntryId s, set_code := card.set_code,
            card_number := card.number, container_id := cid,
            quantity := row.quantity, finish_id := row.finish_id,
            language_id := row.language_id, comments := none,
            user_id := uid, position :=
              if b then importAutoPosition s cid uid card.name
              else none } = some card.name := by
        rw [entryName]
        show (findCard s card.set_code card.number).map _ = _
        rw [hfc]
        rfl
      apply entriesInv_insert s _ hInv
      · rw [hent]
        rfl
      · exact hown
      · cases b with
        | false => exact Or.inl rfl
        | true =>
          refine Or.inr ⟨card.name, hent, ?_⟩
          show (if true = true then importAutoPosition s cid uid card.name
              else none) = _
          rw [if_pos rfl]
          rfl

theorem importFold_inv (rows : List ImportRow) :
    ∀ (s : Store) (uid cid : Nat) (b : Bool),
    EntriesInv s → (∃ c ∈ s.containers, c.id = cid ∧ c.user_id = uid) →
    EntriesInv (rows.foldl
      (fun st row => importRowStep st uid cid b row) s) := by
  induction rows with
  | nil => intro s _ _ _ h _; exact h
  | cons row rest ih =>
    intro s uid cid b hInv hown
    simp only [List.foldl_cons]
    have hstep := importRowStep_inv s uid cid b row hInv hown
    refine ih _ uid cid b hstep.1 ?_
    rw [hstep.2]
    exact hown

theorem importCollection_inv (s : Store) (uid cid : Nat)
    (rows : List ImportRow) (s2 : Store)
    (hInv : EntriesInv s)
    (hrun : importCollection s uid cid rows = .ok s2) :
    EntriesInv s2 := by
  cases hcont : findContainerOwned s cid uid with
  | none => simp [importCollection, hcont] at hrun
  | some container =>
    simp only [importCollection, hcont, Except.ok.injEq] at hrun
    rw [← hrun]
    apply importFold_inv rows s uid cid _ hInv
    have hm := List.mem_of_find?_eq_some hcont
    have hpred := List.find?_some hcont
    simp only [Bool.and_eq_true, beq_iff_eq] at hpred
    exact ⟨container, hm, hpred.1, hpred.2⟩

theorem moveEntry_inv (s : Store) (uid eid : Nat) (d : MoveRequest)
    (s2 : Store) (tid : Nat) (hInv : EntriesInv s)
    (hrun : moveEntry s uid eid d = .ok (s2, tid)) :
    EntriesInv s2 := by
  cases hsrc : s.entries.find? (fun e => e.id == eid && e.user_id == uid) with
  | none => simp [moveEntry, hsrc] at hrun
  | some source =>
  have hsrcmem := List.mem_of_find?_eq_some hsrc
  by_cases hq : d.quantity > source.quantity
  · simp [moveEntry, hsrc, hq] at hrun
  · cases htgt : findContainerOwned s d.target_container_id uid with
    | none => simp [moveEntry, hsrc, hq, htgt] at hrun
    | some target =>
      by_cases hsame : (source.container_id == d.target_container_id) = true
      · simp [moveEntry, hsrc, hq, htgt, hsame] at hrun
      · have howntgt : ∃ c ∈ s.containers, c.id = d.target_container_id ∧
            c.user_id = uid := by
          have hm := List.mem_of_find?_eq_some htgt
          have hpred := List.find?_some htgt
          simp only [Bool.and_eq_true, beq_iff_eq] at hpred
          exact ⟨target, hm, hpred.1, hpred.2⟩
        cases hex : exactVariantQ s uid source.set_code source.card_number
            d.target_container_id source.finish_id source.language_id with
        | some existing =>
          simp only [moveEntry, hsrc, hq, htgt, hsame, hex, if_false,
            Bool.false_eq_true, gt_iff_lt, if_neg (by omega : ¬ source.quantity < d.quantity),
            Except.ok.injEq, Prod.mk.injEq] at hrun
          obtain ⟨hs2, _⟩ := hrun
          rw [← hs2]
          have hbase : EntriesInv { s with entries :=
              (updateEntry s.entries existing.id
                (fun e => { e with quantity := e.quantity + d.quantity })) } :=
            entriesInv_map s _ (fun e => by
              by_cases hid : (e.id == existing.id) = true <;> simp [hid]) hInv
          by_cases hfull : (d.quantity == source.quantity) = true
          · rw [if_pos hfull]
            exact entriesInv_filter _ _ hbase
          · rw [if_neg hfull]
            exact entriesInv_map
              { s with entries := (updateEntry s.entries existing.id
                  (fun e => { e with quantity := e.quantity + d.quantity })) }
              _ (fun e => by
                by_cases hid : (e.id == source.id) = true <;> simp [hid])
              hbase
        | none =>
          simp only [moveEntry, hsrc, hq, htgt, hsame, hex, if_false,
            Bool.false_eq_true, gt_iff_lt, if_neg (by omega : ¬ source.quantity < d.quantity),
            Except.ok.injEq, Prod.mk.injEq] at hrun
          obtain ⟨hs2, _⟩ := hrun
          rw [← hs2]
          have hbase : EntriesInv { s with entries := s.entries ++
              [{ id := freshEntryId s, set_code := source.set_code,
                 card_number := source.card_number,
                 container_id := d.target_container_id,
                 quantity := d.quantity, finish_id := source.finish_id,
                 language_id := source.language_id,
                 comments := source.comments, user_id := uid,
                 position := none }] } := by
            apply entriesInv_insert s _ hInv
            · show (entryName s _).isSome = true
              have : entryName s
                  { id := freshEntryId s, set_code := source.set_code,
                    card_number := source.card_number,
                    container_id := d.target_container_id,
                    quantity := d.quantity, finish_id := source.finish_id,
                    language_id := source.language_id,
                    comments := source.comments, user_id := uid,
                    position := none } = entryName s source := rfl
              rw [this]
              exact hInv.2.2.1 source hsrcmem
            · exact howntgt
            · exact Or.inl rfl
          by_cases hfull : (d.quantity == source.quantity) = true
          · rw [if_pos hfull]
            exact entriesInv_filter _ _ hbase
          · rw [if_neg hfull]
            exact entriesInv_map
              { s with entries := s.entries ++
                [{ id := freshEntryId s, set_code := source.set_code,
                   card_number := source.card_number,
                   container_id := d.target_container_id,
                   quantity := d.quantity, finish_id := source.finish_id,
                   language_id := source.language_id,
                   comments := source.comments, user_id := uid,
                   position := none }] }
              _ (fun e => by
                by_cases hid : (e.id == source.id) = true <;> simp [hid])
              hbase

/-- C2 (amended): in every state reachable by the entry-creating
operations without caller-supplied explicit positions (direct add, CSV
import, quantity move), any two entries of one container with both
positions non-null have equal Card names exactly when they have equal
positions: same-name positioned entries share one position and
different-name entries never share a non-null position.  (The unamended
"all entries of a name carry the same position or are all null" fails:
the quantity-move path creates a null-position entry next to a positioned
same-name group — see the counterexample.) -/
theorem c2_position_invariant_amended (s : Store) (h : ReachE s) :
    ∀ e1 ∈ s.entries, ∀ e2 ∈ s.entries,
      e1.container_id = e2.container_id →
      ∀ p1 p2 : Int, e1.position = some p1 → e2.position = some p2 →
        (entryName s e1 = entryName s e2 ↔ p1 = p2) := by
  have hInv : EntriesInv s := by
    induction h with
    | base s he hc1 hc2 =>
      refine ⟨hc1, hc2, ?_, ?_, ?_⟩ <;> rw [he] <;> simp
    | add s uid d s2 r _ hp hrun ih =>
      exact addToCollection_inv s uid d s2 r hp ih hrun
    | imp s uid cid rows s2 _ hrun ih =>
      exact importCollection_inv s uid cid rows s2 ih hrun
    | move s uid eid d s2 tid _ hrun ih =>
      exact moveEntry_inv s uid eid d s2 tid ih hrun
  obtain ⟨h1, h2, h3, h4, h5⟩ := hInv
  intro e1 he1 e2 he2 hc p1 p2 hp1 hp2
  obtain ⟨c1, hc1m, hc1id, hc1u⟩ := h4 e1 he1
  obtain ⟨c2, hc2m, hc2id, hc2u⟩ := h4 e2 he2
  have hceq : c1 = c2 :=
    List.inj_on_of_nodup_map h2 hc1m hc2m (by rw [hc1id, hc2id, hc])
  have hu : e1.user_id = e2.user_id := by
    rw [← hc1u, hceq, hc2u]
  exact h5 e1 he1 e2 he2 hc hu p1 p2 hp1 hp2

/-- Store for the C2 counterexample: empty entries, a binder (1) and a
box (2), one card Bolt, English and Japanese languages. -/
def sM0 : Store :=
  { cards := [⟨"LEA", "1", "Bolt", "C"⟩], sets := [],
    languages := [⟨1, "en", "English"⟩, ⟨2, "jp", "Japanese"⟩],
    finishes := [],
    containerTypes := [⟨1, "file"⟩, ⟨2, "box"⟩],
    containers := [⟨1, "Binder", 1, none, 0, 7, 3, false⟩,
                   ⟨2, "Box", 2, none, 0, 7, 3, false⟩],
    entries := [] }

/-- After adding English Bolt to the binder (position auto-assigned 1). -/
def sM1 : Store :=
  { sM0 with entries := [⟨1, "LEA", "1", 1, 1, none, 1, none, 7, some 1⟩] }

/-- After adding Japanese Bolt to the box (no position). -/
def sM2 : Store :=
  { sM0 with entries := [⟨1, "LEA", "1", 1, 1, none, 1, none, 7, some 1⟩,
                         ⟨2, "LEA", "1", 2, 1, none, 2, none, 7, none⟩] }

/-- After moving the Japanese Bolt from the box into the binder: the new
binder entry carries no position. -/
def sM3 : Store :=
  { sM0 with entries := [⟨1, "LEA", "1", 1, 1, none, 1, none, 7, some 1⟩,
                         ⟨3, "LEA", "1", 1, 1, none, 2, none, 7, none⟩] }

/-- Counterexample to C2 as stated: a state reached by add, add, and
quantity-move (no explicit positions anywhere) in which the binder holds
two entries of the same card name, one at position 1 and one with a NULL
position — they neither all share one position nor are all null, because
the move path creates its target entry without consulting the position
policy. -/
theorem c2_counterexample :
    addToCollection sM0 7 ⟨"LEA", "1", 1, 1, none, 1, none, none⟩ =
      .ok (sM1, ⟨1, "LEA", "1", 1, 1, none, 1, none, "Bolt", "Binder",
        some 1⟩) ∧
    addToCollection sM1 7 ⟨"LEA", "1", 2, 1, none, 2, none, none⟩ =
      .ok (sM2, ⟨2, "LEA", "1", 2, 1, none, 2, none, "Bolt", "Box",
        none⟩) ∧
    moveEntry sM2 7 2 ⟨1, 1⟩ = .ok (sM3, 3) ∧
    (∃ e1 ∈ sM3.entries, ∃ e3 ∈ sM3.entries,
      e1.container_id = 1 ∧ e3.container_id = 1 ∧
      entryName sM3 e1 = some "Bolt" ∧ entryName sM3 e3 = some "Bolt" ∧
      e1.position = some 1 ∧ e3.position = none) :=
  ⟨by rfl, by rfl, by rfl,
   ⟨⟨1, "LEA", "1", 1, 1, none, 1, none, 7, some 1⟩, by decide,
    ⟨3, "LEA", "1", 1, 1, none, 2, none, 7, none⟩, by decide,
    rfl, rfl, by decide, by decide, rfl, rfl⟩⟩

/-- Witness for the amended C2 at the concrete reachable store sM3 and a
concrete positioned entry pair. -/
theorem c2_position_invariant_amended_witness :
    (entryName sM3 ⟨1, "LEA", "1", 1, 1, none, 1, none, 7, some 1⟩ =
      entryName sM3 ⟨1, "LEA", "1", 1, 1, none, 1, none, 7, some 1⟩ ↔
      (1 : Int) = 1) :=
  c2_position_invariant_amended sM3
    (ReachE.move sM2 7 2 ⟨1, 1⟩ sM3 3
      (ReachE.add sM1 7 ⟨"LEA", "1", 2, 1, none, 2, none, none⟩ sM2
        ⟨2, "LEA", "1", 2, 1, none, 2, none, "Bolt", "Box", none⟩
        (ReachE.add sM0 7 ⟨"LEA", "1", 1, 1, none, 1, none, none⟩ sM1
          ⟨1, "LEA", "1", 1, 1, none, 1, none, "Bolt", "Binder", some 1⟩
          (ReachE.base sM0 rfl (by decide) (by decide))
          rfl (by rfl))
        rfl (by rfl))
      (by rfl))
    ⟨1, "LEA", "1", 1, 1, none, 1, none, 7, some 1⟩ (by decide)
    ⟨1, "LEA", "1", 1, 1, none, 1, none, 7, some 1⟩ (by decide)
    rfl 1 1 rfl rfl

end MagicLib
